import Mathlib

/-!
# Verification of pg_backuper's filename codec, rotation engine, scheduler,
# retry policy and backup executor

A shallow embedding, in Lean 4, of the core logic of the `pg_backuper`
repository (github.com/williamokano/pg_backuper):

* `pkg/rotation/filename.go` — the backup-filename codec
  (`ParseBackupFilename`, `parseNewFormatWithTier`, `parseOldFormat`,
  `GenerateBackupFilename`, `GenerateBackupFilenameWithTier`,
  `ExtractDateFromFilename`);
* `pkg/rotation/retention.go` — the retention engine (`ApplyRetention`,
  `CategorizeTier`) and `pkg/rotation/rotate.go` (`ApplyRetentionWithBackend`);
* `pkg/backup/scheduler.go` — the tier scheduler (`GetDueTiers`,
  `findLastBackupTimeByTier`, `findOldestBackup`, `isBackupForDatabase`);
* `pkg/storage/retry.go` and `pkg/storage/errors.go` — `WithRetry`,
  `IsRetryable`, `IsCritical`;
* `pkg/backup/executor.go` — the control flow of `BackupDatabase`
  (which tiers complete, when rotation runs);
* `pkg/storage/local/local.go` and `pkg/storage/ssh/ssh.go` — the
  filesystem effects of each backend's `Write`.

Modelling conventions:

* Go strings are Lean `String`s; the primitive operations the codec uses
  (`strings.Split`, `strings.Contains`, `strings.TrimSuffix`,
  `strings.Join`, `filepath.Base`, `filepath.Ext`) are reimplemented over
  `List Char` with Go's exact semantics.
* `time.Time` values are `GoTime` records at second granularity plus a
  nanosecond fit-in field (the codec formats never print sub-second data);
  `time.Parse` for the two layouts `2006-01-02T15-04-05` and
  `2006-01-02_15-04-05` is implemented character by character with Go's
  field widths and range validation.  Where the scheduler does time
  arithmetic, instants are `Int` seconds (obtained from `GoTime` by a
  proleptic-Gregorian day count) and durations are `Int` seconds.
* The filesystem / storage backend is a value: a directory is a list of
  (base name, size) entries, a backend's `List` is a function from the
  requested glob pattern to a listing, and functions that delete files
  return the list of paths they delete instead of performing IO.
* `float64` backoff arithmetic in the retry policy is modelled as exact
  rational arithmetic with Go's truncation toward zero at the
  `time.Duration` conversion; this is exact for the integral factors the
  repository uses (default 2.0).
-/

set_option autoImplicit false

namespace PgBackuper

/-! ## Go string primitives over `List Char` -/

/-- The new-format separator `--` (`SeparatorNew` in `filename.go`). -/
def ddSep : List Char := ['-', '-']

/-- `strings.Contains(s, "--")`: is `--` a substring? -/
def containsDD : List Char → Bool
  | x :: y :: rest =>
    (decide (x = '-') && decide (y = '-')) || containsDD (y :: rest)
  | _ => false

/-- Prepend a char to the first part of a split result (helper for the
splitters; a split result is never empty). -/
def consHead (c : Char) : List (List Char) → List (List Char)
  | [] => [[c]]
  | h :: t => (c :: h) :: t

/-- `strings.Split(s, "--")`: split on each leftmost non-overlapping
occurrence of the two-character separator. -/
def splitDD : List Char → List (List Char)
  | [] => [[]]
  | '-' :: '-' :: rest => [] :: splitDD rest
  | c :: rest => consHead c (splitDD rest)

/-- `strings.Split(s, sep)` for a single-character separator. -/
def splitCh (sep : Char) : List Char → List (List Char)
  | [] => [[]]
  | c :: rest => if c = sep then [] :: splitCh sep rest else consHead c (splitCh sep rest)

/-- `strings.Join(parts, sep)` for a single-character separator. -/
def joinCh (sep : Char) : List (List Char) → List Char
  | [] => []
  | [x] => x
  | x :: y :: rest => x ++ sep :: joinCh sep (y :: rest)

/-- Is the first list a prefix of the second (Go `strings.HasPrefix` on
char lists)? -/
def hasPref : List Char → List Char → Bool
  | [], _ => true
  | _ :: _, [] => false
  | a :: as, b :: bs => if a = b then hasPref as bs else false

/-- `strings.HasSuffix` on char lists. -/
def hasSuf (l suf : List Char) : Bool := hasPref suf.reverse l.reverse

/-- `strings.TrimSuffix(l, suf)`: remove the suffix if present. -/
def trimSuffixL (l suf : List Char) : List Char :=
  if hasSuf l suf then l.take (l.length - suf.length) else l

/-- Scanning helper for `filepath.Ext`: the input is the reversed path,
the accumulator the suffix rebuilt in forward order. -/
def goExtAux : List Char → List Char → List Char
  | [], _ => []
  | c :: cs, acc =>
    if c = '/' then [] else if c = '.' then c :: acc else goExtAux cs (c :: acc)

/-- `filepath.Ext(p)`: the suffix starting at the final dot of the final
path element, `""` when there is none. -/
def goExtL (l : List Char) : List Char := goExtAux l.reverse []

/-- `filepath.Base(p)` (Unix separators): `"."` for the empty path, else
drop trailing slashes and keep everything after the last slash. -/
def goBaseL (l : List Char) : List Char :=
  if l = [] then ['.']
  else
    let l' := ((l.reverse.dropWhile (fun c => c = '/')).reverse)
    if l' = [] then ['/']
    else ((l'.reverse.takeWhile (fun c => c ≠ '/')).reverse)

/-! ## `time.Time` at the granularity the codec uses -/

/-- A Go `time.Time` instant in UTC, at the resolution relevant to the
codec: calendar fields plus nanoseconds.  The zero value of Go's
`time.Time` is January 1, year 1, 00:00:00 UTC. -/
structure GoTime where
  Year : Nat
  Month : Nat
  Day : Nat
  Hour : Nat
  Minute : Nat
  Second : Nat
  Nsec : Nat
deriving DecidableEq, Repr

/-- Go's `time.Time{}` zero value. -/
def zeroGoTime : GoTime := ⟨1, 1, 1, 0, 0, 0, 0⟩

/-- `t.Truncate(time.Second)`: drop sub-second precision. -/
def truncSec (t : GoTime) : GoTime := { t with Nsec := 0 }

/-- Gregorian leap-year rule (as in Go's `time` package). -/
def isLeap (y : Nat) : Bool := y % 4 = 0 && (y % 100 ≠ 0 || y % 400 = 0)

/-- Days in a month (Go `daysIn`); months are 1-based. -/
def daysInMonth (y m : Nat) : Nat :=
  if m = 2 then (if isLeap y then 29 else 28)
  else if m = 4 ∨ m = 6 ∨ m = 9 ∨ m = 11 then 30
  else 31

/-- Go `time.Parse` digit test (`'0' <= c && c <= '9'`) with its value. -/
def digitVal? (c : Char) : Option Nat :=
  if '0' ≤ c ∧ c ≤ '9' then some (c.toNat - 48) else none

/-- Parse exactly two digits (a fixed-width `getnum` in Go's parser). -/
def parseFixed2 : List Char → Option (Nat × List Char)
  | c1 :: c2 :: rest =>
    match digitVal? c1, digitVal? c2 with
    | some a, some b => some (a * 10 + b, rest)
    | _, _ => none
  | _ => none

/-- Parse exactly four digits (Go's `stdLongYear`). -/
def parseFixed4 : List Char → Option (Nat × List Char)
  | c1 :: c2 :: c3 :: c4 :: rest =>
    match digitVal? c1, digitVal? c2, digitVal? c3, digitVal? c4 with
    | some a, some b, some c, some d => some (((a * 10 + b) * 10 + c) * 10 + d, rest)
    | _, _, _, _ => none
  | _ => none

/-- Parse one or two digits (Go's non-fixed `getnum`, used for the hour
field of layout element `15`). -/
def parseNum12 : List Char → Option (Nat × List Char)
  | [] => none
  | c1 :: rest =>
    match digitVal? c1 with
    | none => none
    | some a =>
      match rest with
      | c2 :: rest2 =>
        match digitVal? c2 with
        | some b => some (a * 10 + b, rest2)
        | none => some (a, rest)
      | [] => some (a, [])

/-- Match one literal character. -/
def litP (c : Char) : List Char → Option (List Char)
  | [] => none
  | x :: rest => if x = c then some rest else none

/-- Go `time.Parse` for the layouts `2006-01-02T15-04-05` (`sepMid = 'T'`)
and `2006-01-02_15-04-05` (`sepMid = '_'`): field widths and the range
validation (month, calendar day, hour, minute, second) follow Go's
parser; any leftover input is an error. -/
def goTimeParse (sepMid : Char) (l : List Char) : Option GoTime := do
  let (y, r1) ← parseFixed4 l
  let r2 ← litP '-' r1
  let (mo, r3) ← parseFixed2 r2
  let r4 ← litP '-' r3
  let (d, r5) ← parseFixed2 r4
  let r6 ← litP sepMid r5
  let (h, r7) ← parseNum12 r6
  let r8 ← litP '-' r7
  let (mi, r9) ← parseFixed2 r8
  let r10 ← litP '-' r9
  let (s, r11) ← parseFixed2 r10
  if r11 = [] ∧ 1 ≤ mo ∧ mo ≤ 12 ∧ 1 ≤ d ∧ d ≤ daysInMonth y mo ∧
      h ≤ 23 ∧ mi ≤ 59 ∧ s ≤ 59 then
    some ⟨y, mo, d, h, mi, s, 0⟩
  else none

/-- Two-digit zero-padded decimal (Go `appendInt(_, 2)` for values ≤ 99). -/
def pad2 (n : Nat) : List Char := [Nat.digitChar (n / 10), Nat.digitChar (n % 10)]

/-- Four-digit zero-padded decimal (Go `appendInt(_, 4)` for values ≤ 9999). -/
def pad4 (n : Nat) : List Char :=
  [Nat.digitChar (n / 1000), Nat.digitChar (n / 100 % 10),
   Nat.digitChar (n / 10 % 10), Nat.digitChar (n % 10)]

/-- Go `t.Format` for the two codec layouts (`sepMid` as in
`goTimeParse`).  Faithful for field values within the widths above, which
`ValidTime` guarantees. -/
def formatGoTime (sepMid : Char) (t : GoTime) : List Char :=
  pad4 t.Year ++ '-' :: pad2 t.Month ++ '-' :: pad2 t.Day ++
    sepMid :: pad2 t.Hour ++ '-' :: pad2 t.Minute ++ '-' :: pad2 t.Second

/-- The timestamps representable by the codec's filename formats. -/
def ValidTime (t : GoTime) : Prop :=
  t.Year ≤ 9999 ∧ 1 ≤ t.Month ∧ t.Month ≤ 12 ∧ 1 ≤ t.Day ∧
    t.Day ≤ daysInMonth t.Year t.Month ∧ t.Hour ≤ 23 ∧ t.Minute ≤ 59 ∧ t.Second ≤ 59

instance (t : GoTime) : Decidable (ValidTime t) := by unfold ValidTime; infer_instance

/-! ## The filename codec (`pkg/rotation/filename.go`) -/

/-- Parsed components of a backup filename (`BackupFilenameComponents`). -/
structure BackupFilenameComponents where
  DatabaseName : String
  Tier : String
  Timestamp : GoTime
  HasTier : Bool
deriving DecidableEq, Repr

/-- `parseNewFormatWithTier`: split the extension-trimmed name on `--`;
3 parts mean `dbname--TIER--timestamp`, 2 parts `dbname--timestamp`,
anything else is an error. -/
def parseNewFormatWithTier (filename : List Char) : Except String BackupFilenameComponents :=
  let nameWithoutExt := trimSuffixL filename (goExtL filename)
  match splitDD nameWithoutExt with
  | [db, tier, ts] =>
    match goTimeParse 'T' ts with
    | some t => .ok ⟨String.mk db, String.mk tier, t, true⟩
    | none => .error "failed to parse timestamp from tier format"
  | [db, ts] =>
    match goTimeParse 'T' ts with
    | some t => .ok ⟨String.mk db, "", t, false⟩
    | none => .error "failed to parse timestamp from new format"
  | _ => .error "invalid new format: expected 2 or 3 parts separated by the new separator"

/-- `parseOldFormat`: split on `_`, require at least 3 parts, take the
last two as date and time (trimming the extension off the time part) and
parse them with the old layout. -/
def parseOldFormat (filename : List Char) : Except String GoTime :=
  match (splitCh '_' filename).reverse with
  | timePart :: datePart :: _ :: _ =>
    let timeTrimmed := trimSuffixL timePart (goExtL filename)
    match goTimeParse '_' (datePart ++ '_' :: timeTrimmed) with
    | some t => .ok t
    | none => .error "failed to parse old format date"
  | _ => .error "invalid old format: expected at least 3 parts separated by underscore"

/-- `ParseBackupFilename`: take the path's base name, dispatch on the
presence of `--` to the new-format parser, otherwise parse the old format
and reconstruct the database name from everything before the last two
underscore segments. -/
def ParseBackupFilename (filename : String) : Except String BackupFilenameComponents :=
  let base := goBaseL filename.data
  if containsDD base then parseNewFormatWithTier base
  else
    match parseOldFormat base with
    | .error e => .error e
    | .ok t =>
      let parts := splitCh '_' (trimSuffixL base (goExtL base))
      let dbName := joinCh '_' (parts.take (parts.length - 2))
      .ok ⟨String.mk dbName, "", t, false⟩

/-- `ExtractDateFromFilename`: `ParseBackupFilename`, keeping only the
timestamp. -/
def ExtractDateFromFilename (filename : String) : Except String GoTime :=
  match ParseBackupFilename filename with
  | .error e => .error e
  | .ok components => .ok components.Timestamp

/-- `filepath.Join(dir, name)` for an already-clean directory prefix
(the repository always passes either `""` or a clean absolute dir). -/
def joinPath (dir name : String) : String :=
  if dir = "" then name else dir ++ "/" ++ name

/-- `GenerateBackupFilename`: `dbname--TIMESTAMP.backup` under `backupDir`. -/
def GenerateBackupFilename (backupDir dbName : String) (t : GoTime) : String :=
  joinPath backupDir (dbName ++ "--" ++ String.mk (formatGoTime 'T' t) ++ ".backup")

/-- `GenerateBackupFilenameWithTier`: `dbname--TIER--TIMESTAMP.backup`
under `backupDir`. -/
def GenerateBackupFilenameWithTier (backupDir dbName tier : String) (t : GoTime) : String :=
  joinPath backupDir
    (dbName ++ "--" ++ tier ++ "--" ++ String.mk (formatGoTime 'T' t) ++ ".backup")

/-! ## Retention configuration (`pkg/config/schema.go`) -/

/-- `config.RetentionTier`: a tier name and how many backups to keep
(`0 = unlimited` per the schema and the field's doc comment). -/
structure RetentionTier where
  Tier : String
  Retention : Int
deriving DecidableEq, Repr

/-! ## Age-based retention (`pkg/rotation/retention.go`) -/

/-- `rotation.TierName` (a named string type in Go). -/
abbrev TierName := String

/-- `rotation.BackupFile`: a backup file with its parsed metadata.
Timestamps are `Int` seconds. -/
structure BackupFile where
  Path : String
  Timestamp : Int
  CreationTier : String
deriving DecidableEq, Repr

/-- `CategorizeTier`: classify a backup into a tier by its age relative
to `now` (both in seconds). -/
def CategorizeTier (backupTime now : Int) : TierName :=
  let age := now - backupTime
  if age ≤ 24 * 3600 then "hourly"
  else if age ≤ 7 * 24 * 3600 then "daily"
  else if age ≤ 30 * 24 * 3600 then "weekly"
  else if age ≤ 90 * 24 * 3600 then "monthly"
  else if age ≤ 365 * 24 * 3600 then "quarterly"
  else "yearly"

/-- The fixed processing order of tiers in `ApplyRetention`. -/
def sixTierNames : List TierName :=
  ["hourly", "daily", "weekly", "monthly", "quarterly", "yearly"]

/-- The retention map built from the configured tiers (a Go map: a later
duplicate key overwrites an earlier one). -/
def lookupRetention (retentionTiers : List RetentionTier) (t : TierName) : Option Int :=
  retentionTiers.foldl (fun acc rt => if rt.Tier = t then some rt.Retention else acc) none

/-- Insertion sort by timestamp, oldest first.  Go uses the unstable
`sort.Slice` with `Before` as the comparator; any sorted permutation is a
faithful model, and this one is executable and easy to reason about. -/
def insertByTime (b : BackupFile) : List BackupFile → List BackupFile
  | [] => [b]
  | x :: xs => if b.Timestamp < x.Timestamp then b :: x :: xs else x :: insertByTime b xs

/-- See `insertByTime`. -/
def sortByTime : List BackupFile → List BackupFile
  | [] => []
  | x :: xs => insertByTime x (sortByTime xs)

/-- The files `ApplyRetention` marks for deletion within one tier's
group: keep all when the tier is unconfigured or configured with
retention 0, otherwise drop the newest `retention` and delete the rest
(the oldest `count - retention`). -/
def tierDeletions (retentionTiers : List RetentionTier) (now : Int)
    (backups : List BackupFile) (t : TierName) : List String :=
  let group := backups.filter (fun b => CategorizeTier b.Timestamp now = t)
  if group = [] then []
  else
    match lookupRetention retentionTiers t with
    | none => []
    | some retention =>
      if retention = 0 then []
      else
        let sorted := sortByTime group
        if (sorted.length : Int) > retention then
          (sorted.take (sorted.length - retention.toNat)).map (fun b => b.Path)
        else []

/-- `ApplyRetention`: categorize every backup by age, then per tier (in
the fixed order) collect the paths to delete.  `now` stands for the
`time.Now()` call inside the function. -/
def ApplyRetention (backups : List BackupFile) (retentionTiers : List RetentionTier)
    (now : Int) : List String :=
  if backups = [] then []
  else (sixTierNames.map (tierDeletions retentionTiers now backups)).flatten

/-! ## Tag-based retention against a storage backend
(`ApplyRetentionWithBackend` in `pkg/rotation/rotate.go`) -/

/-- `storage.FileInfo`: a backend listing entry (mod time in seconds). -/
structure FileInfo where
  Path : String
  Size : Int
  ModTime : Int
deriving DecidableEq, Repr

/-- A storage backend's `List` operation: the listing (or error) returned
for a requested glob pattern. -/
def BackendList := String → Except String (List FileInfo)

/-- The per-tier body of `ApplyRetentionWithBackend`: list the tier's
tagged files and delete every entry beyond the first `Retention` ones
(the listing is newest-first).  Note the Go code has no `Retention = 0`
check here: with retention 0 and a non-empty listing it deletes
`files[0:]`, i.e. every file.  Returns the paths passed to
`backend.Delete` (individual delete failures are logged and skipped, so
they do not change which deletes are issued). -/
def retentionTierBackendDeletes (files : List FileInfo) (retention : Int) : List FileInfo :=
  if (files.length : Int) ≤ retention then []
  else files.drop retention.toNat

/-- `ApplyRetentionWithBackend`: for each configured tier, list
`dbname--TIER--*.backup` on the backend and apply
`retentionTierBackendDeletes`.  The result is the ordered list of paths
passed to `backend.Delete`, together with the function's error return: a
`List` failure stops the loop with an error (deletes already issued for
earlier tiers stand). -/
def ApplyRetentionWithBackend (list : BackendList) (dbName : String) :
    List RetentionTier → List String × Option String
  | [] => ([], none)
  | tier :: rest =>
    match list (dbName ++ "--" ++ tier.Tier ++ "--*.backup") with
    | .error _ => ([], some ("failed to list files for tier " ++ tier.Tier))
    | .ok files =>
      let del := (retentionTierBackendDeletes files tier.Retention).map (fun f => f.Path)
      let (more, err) := ApplyRetentionWithBackend list dbName rest
      (del ++ more, err)

/-! ## Absolute time for scheduler arithmetic -/

/-- Days since 1970-01-01 of a proleptic-Gregorian civil date
(Hinnant's `days_from_civil`; `Int.fdiv` is floor division). -/
def daysFromCivil (y : Int) (m d : Int) : Int :=
  let y' := if m ≤ 2 then y - 1 else y
  let era := Int.fdiv y' 400
  let yoe := y' - era * 400
  let mp := if m > 2 then m - 3 else m + 9
  let doy := (153 * mp + 2) / 5 + d - 1
  let doe := yoe * 365 + yoe / 4 - yoe / 100 + doy
  era * 146097 + doe - 719468

/-- Unix seconds of a `GoTime` (sub-second part discarded, as in all the
scheduler's comparisons of parsed timestamps). -/
def toSec (t : GoTime) : Int :=
  daysFromCivil (t.Year : Int) (t.Month : Int) (t.Day : Int) * 86400 +
    (t.Hour : Int) * 3600 + (t.Minute : Int) * 60 + (t.Second : Int)

/-- Unix seconds of Go's zero `time.Time`; `x = zeroSec` models
`x.IsZero()` for instants obtained from parsed filenames. -/
def zeroSec : Int := toSec zeroGoTime

/-! ## The scheduler (`pkg/backup/scheduler.go`) -/

/-- One entry of the backup directory: a base filename and a size.
`filepath.Glob` plus `os.Stat` are modelled by matching patterns against
these entries. -/
structure DirFile where
  name : String
  size : Int
deriving DecidableEq, Repr

/-- `filepath.Match` for the patterns the scheduler and rotation use:
a literal prefix, one `*` (which cannot match `/`), and a literal
suffix.  Faithful for prefixes/suffixes free of glob metacharacters. -/
def globMatch1 (pre suf name : List Char) : Bool :=
  pre.length + suf.length ≤ name.length && hasPref pre name && hasSuf name suf &&
    !((name.drop pre.length).take (name.length - pre.length - suf.length)).contains '/'

/-- `isBackupForDatabase`: does this base filename belong to `dbName`?
New format: `dbName--` prefix.  Old format: at least 3 underscore parts
and everything before the last two joins back to `dbName`. -/
def isBackupForDatabase (filename dbName : String) : Bool :=
  let nameWithoutExt := trimSuffixL filename.data (".backup".data)
  if hasPref (dbName.data ++ ddSep) nameWithoutExt then true
  else
    let parts := splitCh '_' nameWithoutExt
    if 3 ≤ parts.length then
      decide (joinCh '_' (parts.take (parts.length - 2)) = dbName.data)
    else false

/-- `findLastBackupTimeByTier`: glob `dbname--TIER--*.backup`, parse each
match, keep entries whose tier tag equals `tierName` and whose size is
non-zero, and return the latest timestamp (Go's zero time when none). -/
def findLastBackupTimeByTier (dir : List DirFile) (dbName tierName : String) : Int :=
  let pre := dbName.data ++ ddSep ++ tierName.data ++ ddSep
  let ms := dir.filter (fun f => globMatch1 pre (".backup".data) f.name.data)
  if ms = [] then zeroSec
  else
    ms.foldl
      (fun mostRecent f =>
        match ParseBackupFilename f.name with
        | .error _ => mostRecent
        | .ok components =>
          if components.Tier ≠ tierName then mostRecent
          else if f.size = (0 : Int) then mostRecent
          else if toSec components.Timestamp > mostRecent then toSec components.Timestamp
          else mostRecent)
      zeroSec

/-- `findOldestBackup`: glob `dbname*.backup` (also matches old-format
names), filter by `isBackupForDatabase`, parse, and return the earliest
timestamp (Go's zero time when none).  No size filtering here. -/
def findOldestBackup (dir : List DirFile) (dbName : String) : Int :=
  let ms := dir.filter (fun f => globMatch1 dbName.data (".backup".data) f.name.data)
  if ms = [] then zeroSec
  else
    ms.foldl
      (fun oldest f =>
        if !isBackupForDatabase f.name dbName then oldest
        else
          match ExtractDateFromFilename f.name with
          | .error _ => oldest
          | .ok t => if oldest = zeroSec ∨ toSec t < oldest then toSec t else oldest)
      zeroSec

/-- `TierInterval`: tier name to interval in seconds. -/
def tierIntervalSec : String → Option Int
  | "hourly" => some 3600
  | "daily" => some 86400
  | "weekly" => some (7 * 86400)
  | "monthly" => some (30 * 86400)
  | "quarterly" => some (90 * 86400)
  | "yearly" => some (365 * 86400)
  | _ => none

/-- `backup.TierSchedule`: the due list and the next-due map (the Go map
is modelled as an association list updated in place). -/
structure TierSchedule where
  Due : List String
  Next : List (String × Int)
deriving DecidableEq, Repr

/-- Go map assignment `m[k] = v` on the association-list model. -/
def setAssoc (k : String) (v : Int) : List (String × Int) → List (String × Int)
  | [] => [(k, v)]
  | (k', v') :: rest => if k' = k then (k, v) :: rest else (k', v') :: setAssoc k v rest

/-- Go map lookup `m[k]` on the association-list model. -/
def lookupAssoc (k : String) : List (String × Int) → Option Int
  | [] => none
  | (k', v) :: rest => if k' = k then some v else lookupAssoc k rest

/-- One iteration of the tier loop of `GetDueTiers` for the configured
tier `rt`: unknown tier names are skipped; the yearly tier is satisfied
without being due when any backup of the database is already a year old;
otherwise a tier is due when it has no prior backup or its latest backup
is at least one interval old.  (The `findLastBackupTimeByTier` error
branch cannot fire in this model: `filepath.Glob` only fails on a
malformed pattern.) -/
def getDueTiersStep (dir : List DirFile) (dbName : String) (now : Int)
    (sched : TierSchedule) (rt : RetentionTier) : TierSchedule :=
  match tierIntervalSec rt.Tier with
  | none => sched
  | some interval =>
    let lastBackupTime := findLastBackupTimeByTier dir dbName rt.Tier
    let oldestBackup := findOldestBackup dir dbName
    if rt.Tier = "yearly" ∧ lastBackupTime ≠ zeroSec ∧ oldestBackup ≠ zeroSec ∧
        now - oldestBackup ≥ interval then
      { sched with Next := setAssoc rt.Tier (oldestBackup + interval) sched.Next }
    else if lastBackupTime = zeroSec then
      { Due := sched.Due ++ [rt.Tier], Next := setAssoc rt.Tier now sched.Next }
    else if now - lastBackupTime ≥ interval then
      { Due := sched.Due ++ [rt.Tier], Next := setAssoc rt.Tier now sched.Next }
    else
      { sched with Next := setAssoc rt.Tier (lastBackupTime + interval) sched.Next }

/-- `GetDueTiers`: with no retention tiers configured the single tier
`"default"` is due (legacy behavior); otherwise every configured tier is
checked independently by `getDueTiersStep`. -/
def GetDueTiers (retentionTiers : List RetentionTier) (dir : List DirFile)
    (dbName : String) (now : Int) : TierSchedule :=
  if retentionTiers = [] then ⟨["default"], []⟩
  else retentionTiers.foldl (getDueTiersStep dir dbName now) ⟨[], []⟩

/-! ## Retry policy (`pkg/storage/retry.go`, `pkg/storage/errors.go`) -/

/-- The storage error values (`pkg/storage/errors.go`), plus
`context.Canceled` (the value of `ctx.Err()` after cancellation) and a
catch-all for any other error. -/
inductive GoErr where
  | connFailed
  | timeout
  | authFailed
  | invalidConfig
  | permissionDenied
  | notFound
  | ctxCanceled
  | other (code : Nat)
deriving DecidableEq, Repr

/-- `IsRetryable`: connection failures and timeouts. -/
def IsRetryable : GoErr → Bool
  | .connFailed => true
  | .timeout => true
  | _ => false

/-- `IsCritical`: authentication failures and invalid configuration. -/
def IsCritical : GoErr → Bool
  | .authFailed => true
  | .invalidConfig => true
  | _ => false

/-- `storage.RetryConfig`.  Delays are `int64` nanoseconds
(`time.Duration`); the backoff factor is a `float64`, modelled as an
exact rational. -/
structure RetryConfig where
  MaxAttempts : Int
  InitialDelay : Int
  MaxDelay : Int
  BackoffFactor : ℚ
deriving DecidableEq, Repr

/-- `DefaultRetryConfig()`: 3 attempts, 1s initial delay, 30s cap,
factor 2.0. -/
def DefaultRetryConfig : RetryConfig := ⟨3, 1000000000, 30000000000, 2⟩

/-- `time.Duration(float64(d) * f)`: multiply and truncate toward zero
(Lean's `Int` division truncates toward zero). -/
def durMulFactor (d : Int) (f : ℚ) : Int :=
  let q := (d : ℚ) * f
  q.num / (q.den : Int)

/-- What one run of `WithRetry` did: its return value (`none` = `nil`),
how many times it invoked the operation, and the sequence of
inter-attempt sleeps it completed. -/
structure RetryRun where
  result : Option GoErr
  opCalls : Nat
  sleeps : List Int
deriving DecidableEq, Repr

/-- The loop of `WithRetry`.  `op k` is the outcome of the `k`-th
invocation of the operation (`none` = success); `canceled k` says
whether the context is observed canceled during the wait that follows
attempt `k` (the `ctx.Done()` branch of the `select`); `fuel` is the
number of loop iterations left (`MaxAttempts - attempt + 1`); when it
runs out the loop falls through and returns `lastErr`. -/
def withRetryAux (op : Nat → Option GoErr) (canceled : Nat → Bool)
    (maxDelay : Int) (factor : ℚ) :
    Nat → Nat → Int → Option GoErr → RetryRun
  | _, 0, _, lastErr => ⟨lastErr, 0, []⟩
  | attempt, fuel + 1, delay, _ =>
    match op attempt with
    | none => ⟨none, 1, []⟩
    | some e =>
      if IsCritical e then ⟨some e, 1, []⟩
      else if !IsRetryable e then ⟨some e, 1, []⟩
      else if fuel = 0 then ⟨some e, 1, []⟩
      else if canceled attempt then ⟨some .ctxCanceled, 1, []⟩
      else
        let d := durMulFactor delay factor
        let newDelay := if d > maxDelay then maxDelay else d
        let r := withRetryAux op canceled maxDelay factor (attempt + 1) fuel newDelay (some e)
        ⟨r.result, r.opCalls + 1, delay :: r.sleeps⟩

/-- `WithRetry(ctx, cfg, op)`.  With `MaxAttempts ≤ 0` the loop body
never runs and the function returns `nil`. -/
def WithRetry (op : Nat → Option GoErr) (canceled : Nat → Bool)
    (cfg : RetryConfig) : RetryRun :=
  withRetryAux op canceled cfg.MaxDelay cfg.BackoffFactor 1 cfg.MaxAttempts.toNat
    cfg.InitialDelay none

/-! ## Executor control flow (`pkg/backup/executor.go`, `BackupDatabase`) -/

/-- What happened to one tier's backup attempt inside the per-tier loop:
`pg_dump` failed, the dump file was missing or empty afterwards, or the
artifact was uploaded with the given per-backend success flags. -/
inductive TierOutcome where
  | dumpFailed
  | fileMissing
  | fileEmpty
  | uploaded (backendSuccess : List Bool)
deriving DecidableEq, Repr

/-- The observable outcome of `BackupDatabase` that the safety claims
are about: the `Result` fields plus the list of backends on which
`rotation.ApplyRetentionWithBackend` was invoked. -/
structure ExecResult where
  Success : Bool
  Skipped : Bool
  TiersCompleted : List String
  TiersFailed : List String
  rotationCalls : List String
deriving DecidableEq, Repr

/-- The per-tier loop of `BackupDatabase`: a tier joins `TiersCompleted`
exactly when its dump produced a non-empty file and at least one backend
accepted the upload; otherwise it joins `TiersFailed`. -/
def execTierLoop (outcome : String → TierOutcome) (dueTiers : List String) :
    List String × List String :=
  dueTiers.foldl
    (fun acc tier =>
      match outcome tier with
      | .uploaded flags =>
        if flags.any id then (acc.1 ++ [tier], acc.2) else (acc.1, acc.2 ++ [tier])
      | _ => (acc.1, acc.2 ++ [tier]))
    ([], [])

/-- `BackupDatabase`: early returns (no due tiers; `.pgpass` missing or
with bad permissions; backend or temp-dir initialization failure) never
reach rotation; after the per-tier loop, rotation runs on every backend
only when at least one tier completed and retention tiers are
configured. -/
def BackupDatabase (dueTiers : List String) (backends : List String)
    (retentionTiers : List RetentionTier) (pgpassOk pgpassPermsOk backendsOk tempDirOk : Bool)
    (outcome : String → TierOutcome) : ExecResult :=
  if dueTiers = [] then ⟨true, true, [], [], []⟩
  else if !pgpassOk then ⟨false, false, [], [], []⟩
  else if !pgpassPermsOk then ⟨false, false, [], [], []⟩
  else if !backendsOk then ⟨false, false, [], [], []⟩
  else if !tempDirOk then ⟨false, false, [], [], []⟩
  else
    let (completed, failed) := execTierLoop outcome dueTiers
    let rotationCalls :=
      if completed ≠ [] ∧ retentionTiers ≠ [] then backends else []
    ⟨failed = [], false, completed, failed, rotationCalls⟩

/-! ## Backend `Write` effects (`storage/local/local.go`, `storage/ssh/ssh.go`) -/

/-- The destination filesystem as a value: path to size. -/
abbrev FS := List (String × Int)

/-- Store a file (create/truncate then write `sz` bytes). -/
def fsSet (p : String) (sz : Int) : FS → FS
  | [] => [(p, sz)]
  | (q, s) :: rest => if q = p then (p, sz) :: rest else (q, s) :: fsSet p sz rest

/-- `os.Remove` / `sftp.Remove`. -/
def fsRemove (p : String) : FS → FS
  | [] => []
  | (q, s) :: rest => if q = p then rest else (q, s) :: fsRemove p rest

/-- Size of the object at `p`, if present. -/
def fsLookup (p : String) : FS → Option Int
  | [] => none
  | (q, s) :: rest => if q = p then some s else fsLookup p rest

/-- Would `Exists(destPath)` report the object?  (Any present object.) -/
def existsReports (fs : FS) (p : String) : Bool := (fsLookup p fs).isSome

/-- Would a matching `List` call surface the object?  Both backends'
`List` skip zero-byte entries, so: present with non-zero size. -/
def listReports (fs : FS) (p : String) : Bool :=
  match fsLookup p fs with
  | some sz => !(sz = 0)
  | none => false

/-- Which step of a `Write` fails, if any: `copyFail n` means `io.Copy`
reported an error after flushing `n` bytes to the destination. -/
inductive WriteScenario where
  | mkdirFail
  | openSourceFail
  | createFail
  | copyFail (bytesWritten : Int)
  | allOk
deriving DecidableEq, Repr

/-- Result of a `Write`: the destination filesystem afterwards and
whether an error was returned. -/
structure WriteOutcome where
  fs : FS
  err : Bool
deriving DecidableEq, Repr

/-- `local.Backend.Write`: `MkdirAll`, `os.Open(source)`,
`os.Create(dest)`, `io.Copy`; on a copy error the partial destination
file is removed (`os.Remove(destFullPath)`) before returning the
error. -/
def localWrite (fs : FS) (destPath : String) (sourceSize : Int)
    (sc : WriteScenario) : WriteOutcome :=
  match sc with
  | .mkdirFail => ⟨fs, true⟩
  | .openSourceFail => ⟨fs, true⟩
  | .createFail => ⟨fs, true⟩
  | .copyFail n => ⟨fsRemove destPath (fsSet destPath n fs), true⟩
  | .allOk => ⟨fsSet destPath sourceSize fs, false⟩

/-- `ssh.Backend.Write` (one invocation of the operation `WithRetry`
wraps): `os.Open(source)`, `sftpClient.MkdirAll`, `sftpClient.Create`,
`io.Copy`; on a copy error it returns immediately — there is no removal
of the partial remote file. -/
def sshWrite (fs : FS) (destPath : String) (sourceSize : Int)
    (sc : WriteScenario) : WriteOutcome :=
  match sc with
  | .openSourceFail => ⟨fs, true⟩
  | .mkdirFail => ⟨fs, true⟩
  | .createFail => ⟨fs, true⟩
  | .copyFail n => ⟨fsSet destPath n fs, true⟩
  | .allOk => ⟨fsSet destPath sourceSize fs, false⟩

/-! ## Validity predicates used by the round-trip statements -/

/-- A database name / tier tag the new filename format encodes
unambiguously: free of the separator `--`, not ending in `-` (which
would merge with the separator), and without path separators. -/
def ValidNamePart (s : String) : Prop :=
  containsDD s.data = false ∧ s.data.getLast? ≠ some '-' ∧ '/' ∉ s.data

instance (s : String) : Decidable (ValidNamePart s) := by
  unfold ValidNamePart; infer_instance

/-- A database name the legacy underscore format can represent: it may
contain underscores, but not the new separator (which would reroute
parsing) nor path separators. -/
def ValidLegacyDbName (s : String) : Prop :=
  containsDD s.data = false ∧ '/' ∉ s.data

instance (s : String) : Decidable (ValidLegacyDbName s) := by
  unfold ValidLegacyDbName; infer_instance

/-- The date half `YYYY-MM-DD` of a formatted timestamp. -/
def datePartFmt (t : GoTime) : List Char :=
  pad4 t.Year ++ ('-' :: (pad2 t.Month ++ ('-' :: pad2 t.Day)))

/-- The time half `HH-MM-SS` of a formatted timestamp. -/
def timePartFmt (t : GoTime) : List Char :=
  pad2 t.Hour ++ ('-' :: (pad2 t.Minute ++ ('-' :: pad2 t.Second)))

/-! ## Digit arithmetic facts -/

theorem mod10_lt (n : Nat) : n % 10 < 10 := Nat.mod_lt _ (by decide)

/-! ## Prefix / suffix / trim lemmas -/

theorem hasPref_append_self (p r : List Char) : hasPref p (p ++ r) = true := by
  induction p with
  | nil => rfl
  | cons c cs ih => simp [hasPref, ih]

theorem hasSuf_append_self (a s : List Char) : hasSuf (a ++ s) s = true := by
  unfold hasSuf
  rw [List.reverse_append]
  exact hasPref_append_self _ _

theorem trimSuffixL_append (a s : List Char) : trimSuffixL (a ++ s) s = a := by
  unfold trimSuffixL
  rw [hasSuf_append_self]
  simp

/-! ## `filepath.Ext` lemmas -/

theorem goExtAux_cons_other {c : Char} (h1 : c ≠ '/') (h2 : c ≠ '.')
    (cs acc : List Char) : goExtAux (c :: cs) acc = goExtAux cs (c :: acc) := by
  simp [goExtAux, h1, h2]

theorem goExtL_backup (a : List Char) :
    goExtL (a ++ ('.' :: "backup".data)) = '.' :: "backup".data := by
  unfold goExtL
  rw [show ('.' :: "backup".data) = ".backup".data from rfl]
  rw [List.reverse_append]
  rw [show (".backup".data.reverse) = ['p', 'u', 'k', 'c', 'a', 'b', '.'] from rfl]
  simp only [List.cons_append]
  rw [goExtAux_cons_other (by decide) (by decide)]
  rw [goExtAux_cons_other (by decide) (by decide)]
  rw [goExtAux_cons_other (by decide) (by decide)]
  rw [goExtAux_cons_other (by decide) (by decide)]
  rw [goExtAux_cons_other (by decide) (by decide)]
  rw [goExtAux_cons_other (by decide) (by decide)]
  rfl

/-! ## `filepath.Base` lemma -/

theorem dropWhile_of_not_head {p : Char → Bool} {l : List Char}
    (h : ∀ c ∈ l, p c = false) : l.dropWhile p = l := by
  cases l with
  | nil => rfl
  | cons c cs => simp [List.dropWhile_cons, h c (by simp)]

theorem takeWhile_of_all {p : Char → Bool} {l : List Char}
    (h : ∀ c ∈ l, p c = true) : l.takeWhile p = l := by
  induction l with
  | nil => rfl
  | cons c cs ih =>
    simp only [List.takeWhile_cons, h c (by simp), if_true]
    rw [ih (fun x hx => h x (by simp [hx]))]

theorem goBaseL_no_slash {l : List Char} (hne : l ≠ []) (h : '/' ∉ l) :
    goBaseL l = l := by
  unfold goBaseL
  rw [if_neg hne]
  have hdrop : l.reverse.dropWhile (fun c => c = '/') = l.reverse := by
    apply dropWhile_of_not_head
    intro c hc
    have : c ∈ l := List.mem_reverse.mp hc
    simp
    intro hEq
    exact h (hEq ▸ this)
  rw [hdrop, List.reverse_reverse, if_neg hne]
  have htake : l.reverse.takeWhile (fun c => c ≠ '/') = l.reverse := by
    apply takeWhile_of_all
    intro c hc
    have : c ∈ l := List.mem_reverse.mp hc
    simp
    intro hEq
    exact h (hEq ▸ this)
  rw [htake, List.reverse_reverse]

/-! ## `containsDD` lemmas -/

theorem containsDD_append_dd (a r : List Char) :
    containsDD (a ++ '-' :: '-' :: r) = true := by
  induction a with
  | nil => simp [containsDD]
  | cons c cs ih =>
    cases cs with
    | nil => simp [containsDD]
    | cons c2 cs2 => simp [containsDD]; right; exact ih

theorem containsDD_cons_false {c : Char} {cs : List Char}
    (h : containsDD (c :: cs) = false) : containsDD cs = false := by
  cases cs with
  | nil => rfl
  | cons c2 cs2 =>
    by_contra hc
    simp [containsDD] at h
    exact absurd h.2 (by simpa using hc)

theorem containsDD_append (a b : List Char) :
    containsDD (a ++ b) =
      (containsDD a || containsDD b ||
        (decide (a.getLast? = some '-') && decide (b.head? = some '-'))) := by
  induction a with
  | nil => simp [containsDD]
  | cons c cs ih =>
    cases cs with
    | nil =>
      cases b with
      | nil => simp [containsDD]
      | cons b1 bs => simp [containsDD, Bool.or_comm]
    | cons c2 cs2 =>
      have hlast : (c :: c2 :: cs2).getLast? = (c2 :: cs2).getLast? := by
        simp [List.getLast?_cons_cons]
      calc containsDD ((c :: c2 :: cs2) ++ b)
          = ((decide (c = '-') && decide (c2 = '-')) || containsDD ((c2 :: cs2) ++ b)) := by
            simp [containsDD]
        _ = ((decide (c = '-') && decide (c2 = '-')) ||
              (containsDD (c2 :: cs2) || containsDD b ||
                (decide ((c2 :: cs2).getLast? = some '-') && decide (b.head? = some '-')))) := by
            rw [ih]
        _ = (containsDD (c :: c2 :: cs2) || containsDD b ||
              (decide ((c :: c2 :: cs2).getLast? = some '-') && decide (b.head? = some '-'))) := by
            rw [hlast]
            simp [containsDD, Bool.or_assoc]

/-! ## `splitDD` lemmas -/

theorem splitDD_cons_cons (x y : Char) (rest : List Char) :
    splitDD (x :: y :: rest) =
      if x = '-' ∧ y = '-' then [] :: splitDD rest
      else consHead x (splitDD (y :: rest)) := by
  by_cases hx : x = '-'
  · by_cases hy : y = '-'
    · subst hx; subst hy; simp [splitDD]
    · subst hx; simp [splitDD, hy]
  · simp [splitDD, hx]

theorem splitDD_no_dd {a : List Char} (h : containsDD a = false) : splitDD a = [a] := by
  induction a with
  | nil => rfl
  | cons c cs ih =>
    cases cs with
    | nil => simp [splitDD, consHead]
    | cons c2 cs2 =>
      have hcc : ¬(c = '-' ∧ c2 = '-') := by
        simp [containsDD] at h
        intro hpair
        exact absurd (h.1 hpair.1) (by simp [hpair.2])
      have htail : containsDD (c2 :: cs2) = false := containsDD_cons_false h
      rw [splitDD_cons_cons, if_neg hcc, ih htail]
      rfl

theorem splitDD_append_dd {a : List Char} (r : List Char)
    (h : containsDD a = false) (hlast : a.getLast? ≠ some '-') :
    splitDD (a ++ '-' :: '-' :: r) = a :: splitDD r := by
  induction a with
  | nil => simp [splitDD]
  | cons c cs ih =>
    cases cs with
    | nil =>
      have hc : c ≠ '-' := by
        intro hEq
        exact hlast (by simp [hEq])
      simp only [List.cons_append, List.nil_append]
      rw [splitDD_cons_cons, if_neg (by intro hpair; exact hc hpair.1)]
      rw [show splitDD ('-' :: '-' :: r) = [] :: splitDD r from by simp [splitDD]]
      rfl
    | cons c2 cs2 =>
      have hcc : ¬(c = '-' ∧ c2 = '-') := by
        simp [containsDD] at h
        intro hpair
        exact absurd (h.1 hpair.1) (by simp [hpair.2])
      have htail : containsDD (c2 :: cs2) = false := containsDD_cons_false h
      have hlast2 : (c2 :: cs2).getLast? ≠ some '-' := by
        rw [show (c2 :: cs2).getLast? = (c :: c2 :: cs2).getLast? from by
          simp [List.getLast?_cons_cons]]
        exact hlast
      simp only [List.cons_append]
      rw [splitDD_cons_cons, if_neg hcc, ← List.cons_append, ih htail hlast2]
      rfl

/-! ## `splitCh` and `joinCh` lemmas -/

theorem splitCh_ne_nil (sep : Char) (l : List Char) : splitCh sep l ≠ [] := by
  cases l with
  | nil => simp [splitCh]
  | cons c cs =>
    simp only [splitCh]
    by_cases h : c = sep
    · simp [h]
    · simp only [if_neg h]
      cases splitCh sep cs with
      | nil => simp [consHead]
      | cons x xs => simp [consHead]

theorem splitCh_no_sep {sep : Char} {a : List Char} (h : sep ∉ a) :
    splitCh sep a = [a] := by
  induction a with
  | nil => rfl
  | cons c cs ih =>
    have hc : c ≠ sep := fun hEq => h (by simp [hEq])
    have htail : sep ∉ cs := fun hmem => h (by simp [hmem])
    simp only [splitCh, if_neg hc, ih htail]
    rfl

theorem splitCh_append (sep : Char) (a b : List Char) :
    splitCh sep (a ++ sep :: b) = splitCh sep a ++ splitCh sep b := by
  induction a with
  | nil => simp [splitCh]
  | cons c cs ih =>
    by_cases hc : c = sep
    · simp only [List.cons_append, splitCh, if_pos hc]
      rw [show (cs.append (sep :: b)) = cs ++ sep :: b from rfl, ih]
    · simp only [List.cons_append, splitCh, if_neg hc]
      rw [show (cs.append (sep :: b)) = cs ++ sep :: b from rfl, ih]
      rcases hsp : splitCh sep cs with _ | ⟨x, xs⟩
      · exact absurd hsp (splitCh_ne_nil sep cs)
      · simp [consHead]

theorem joinCh_consHead (sep : Char) (c : Char) (l : List (List Char)) :
    joinCh sep (consHead c l) = c :: joinCh sep l := by
  cases l with
  | nil => rfl
  | cons x xs =>
    cases xs with
    | nil => rfl
    | cons y ys => rfl

theorem joinCh_splitCh (sep : Char) (a : List Char) :
    joinCh sep (splitCh sep a) = a := by
  induction a with
  | nil => rfl
  | cons c cs ih =>
    by_cases hc : c = sep
    · subst hc
      have hsplit : splitCh c (c :: cs) = [] :: splitCh c cs := by simp [splitCh]
      rw [hsplit]
      rcases hsp : splitCh c cs with _ | ⟨x, xs⟩
      · exact absurd hsp (splitCh_ne_nil c cs)
      · rw [hsp] at ih
        rw [show joinCh c ([] :: x :: xs) = [] ++ c :: joinCh c (x :: xs) from rfl]
        simp [ih]
    · simp only [splitCh, if_neg hc, joinCh_consHead, ih]

/-! ## Character facts about formatted digits -/

theorem digitChar_ge_16 {n : Nat} (h : 16 ≤ n) : Nat.digitChar n = '*' := by
  unfold Nat.digitChar
  repeat rw [if_neg (by omega)]

theorem digitChar_ne_dash (n : Nat) : Nat.digitChar n ≠ '-' := by
  rcases Nat.lt_or_ge n 16 with h | h
  · revert h
    have hball : ∀ m < 16, Nat.digitChar m ≠ '-' := by decide
    exact hball n
  · rw [digitChar_ge_16 h]
    decide

theorem digitChar_ne_slash (n : Nat) : Nat.digitChar n ≠ '/' := by
  rcases Nat.lt_or_ge n 16 with h | h
  · revert h
    have hball : ∀ m < 16, Nat.digitChar m ≠ '/' := by decide
    exact hball n
  · rw [digitChar_ge_16 h]
    decide

theorem decide_digitChar_dash (n : Nat) : decide (Nat.digitChar n = '-') = false :=
  decide_eq_false (digitChar_ne_dash n)

theorem containsDD_pad2 (n : Nat) : containsDD (pad2 n) = false := by
  simp [pad2, containsDD, decide_digitChar_dash]

theorem containsDD_pad4 (n : Nat) : containsDD (pad4 n) = false := by
  simp [pad4, containsDD, decide_digitChar_dash]

theorem containsDD_sep_pad2 (c : Char) (n : Nat) :
    containsDD (c :: pad2 n) = false := by
  simp [pad2, containsDD, decide_digitChar_dash]

theorem getLast?_pad2 (n : Nat) : (pad2 n).getLast? = some (Nat.digitChar (n % 10)) := by
  simp [pad2]

theorem getLast?_pad4 (n : Nat) : (pad4 n).getLast? = some (Nat.digitChar (n % 10)) := by
  simp [pad4]

theorem getLast?_sep_pad2 (c : Char) (n : Nat) :
    (c :: pad2 n).getLast? = some (Nat.digitChar (n % 10)) := by
  simp [pad2, List.getLast?_cons_cons]

theorem containsDD_cons (x : Char) (xs : List Char) :
    containsDD (x :: xs) =
      ((decide (x = '-') && decide (xs.head? = some '-')) || containsDD xs) := by
  cases xs with
  | nil => simp [containsDD]
  | cons y ys => simp [containsDD]

theorem head?_pad2_append (n : Nat) (r : List Char) :
    (pad2 n ++ r).head? = some (Nat.digitChar (n / 10)) := by
  simp [pad2]

theorem containsDD_headBlock (c : Char) (n : Nat) (rest : List Char)
    (h1 : containsDD rest = false) :
    containsDD ((c :: pad2 n) ++ rest) = false := by
  rw [containsDD_append, containsDD_sep_pad2, h1, getLast?_sep_pad2]
  simp [decide_digitChar_dash, digitChar_ne_dash]

theorem containsDD_format (sep : Char) (t : GoTime) :
    containsDD (formatGoTime sep t) = false := by
  have e : formatGoTime sep t =
      pad4 t.Year ++ (('-' :: pad2 t.Month) ++ (('-' :: pad2 t.Day) ++
        ((sep :: pad2 t.Hour) ++ (('-' :: pad2 t.Minute) ++ ('-' :: pad2 t.Second))))) := by
    simp [formatGoTime]
  have h5 : containsDD ('-' :: pad2 t.Second) = false := containsDD_sep_pad2 _ _
  have h4 := containsDD_headBlock '-' t.Minute _ h5
  have h3 := containsDD_headBlock sep t.Hour _ h4
  have h2 := containsDD_headBlock '-' t.Day _ h3
  have h1 := containsDD_headBlock '-' t.Month _ h2
  rw [e, containsDD_append, containsDD_pad4, h1, getLast?_pad4]
  simp [decide_digitChar_dash, digitChar_ne_dash]

theorem format_getLast (sep : Char) (t : GoTime) :
    (formatGoTime sep t).getLast? = some (Nat.digitChar (t.Second % 10)) := by
  unfold formatGoTime
  rw [List.getLast?_append, getLast?_sep_pad2]
  simp

theorem format_getLast_ne_dash (sep : Char) (t : GoTime) :
    (formatGoTime sep t).getLast? ≠ some '-' := by
  rw [format_getLast]
  simp [digitChar_ne_dash]

theorem slash_not_mem_pad2 (n : Nat) : '/' ∉ pad2 n := by
  simp [pad2]
  exact ⟨fun h => digitChar_ne_slash _ h.symm, fun h => digitChar_ne_slash _ h.symm⟩

theorem slash_not_mem_pad4 (n : Nat) : '/' ∉ pad4 n := by
  simp [pad4]
  refine ⟨?_, ?_, ?_, ?_⟩ <;> exact fun h => digitChar_ne_slash _ h.symm

theorem slash_not_mem_format {sep : Char} (hsep : sep ≠ '/') (t : GoTime) :
    '/' ∉ formatGoTime sep t := by
  have hsep' : '/' ≠ sep := fun h => hsep h.symm
  simp [formatGoTime, List.mem_append, List.mem_cons, slash_not_mem_pad2,
    slash_not_mem_pad4, hsep']

/-! ## Parsing a formatted timestamp recovers the fields -/

theorem digitVal_digitChar {m : Nat} (h : m < 10) :
    digitVal? (Nat.digitChar m) = some m := by
  revert h
  have hball : ∀ k < 10, digitVal? (Nat.digitChar k) = some k := by decide
  exact hball m

theorem parseFixed2_pad2 {n : Nat} (h : n ≤ 99) (r : List Char) :
    parseFixed2 (pad2 n ++ r) = some (n, r) := by
  have h1 : n / 10 < 10 := by omega
  have h2 : n % 10 < 10 := mod10_lt n
  simp only [pad2, List.cons_append, List.nil_append, parseFixed2,
    digitVal_digitChar h1, digitVal_digitChar h2]
  have : n / 10 * 10 + n % 10 = n := by omega
  rw [this]

theorem parseFixed4_pad4 {n : Nat} (h : n ≤ 9999) (r : List Char) :
    parseFixed4 (pad4 n ++ r) = some (n, r) := by
  have h1 : n / 1000 < 10 := by omega
  have h2 : n / 100 % 10 < 10 := mod10_lt _
  have h3 : n / 10 % 10 < 10 := mod10_lt _
  have h4 : n % 10 < 10 := mod10_lt n
  simp only [pad4, List.cons_append, List.nil_append, parseFixed4,
    digitVal_digitChar h1, digitVal_digitChar h2, digitVal_digitChar h3,
    digitVal_digitChar h4]
  have : ((n / 1000 * 10 + n / 100 % 10) * 10 + n / 10 % 10) * 10 + n % 10 = n := by omega
  rw [this]

theorem parseNum12_pad2 {n : Nat} (h : n ≤ 99) (r : List Char) :
    parseNum12 (pad2 n ++ r) = some (n, r) := by
  have h1 : n / 10 < 10 := by omega
  have h2 : n % 10 < 10 := mod10_lt n
  simp only [pad2, List.cons_append, List.nil_append, parseNum12,
    digitVal_digitChar h1, digitVal_digitChar h2]
  have : n / 10 * 10 + n % 10 = n := by omega
  rw [this]

theorem litP_cons (c : Char) (r : List Char) : litP c (c :: r) = some r := by
  simp [litP]

theorem daysInMonth_le (y m : Nat) : daysInMonth y m ≤ 31 := by
  unfold daysInMonth
  repeat' split
  all_goals omega

theorem goTimeParse_format {t : GoTime} (h : ValidTime t) (sep : Char) :
    goTimeParse sep (formatGoTime sep t) = some (truncSec t) := by
  obtain ⟨hY, hM1, hM2, hD1, hD2, hH, hMi, hS⟩ := h
  have e : formatGoTime sep t =
      pad4 t.Year ++ ('-' :: (pad2 t.Month ++ ('-' :: (pad2 t.Day ++
        (sep :: (pad2 t.Hour ++ ('-' :: (pad2 t.Minute ++
          ('-' :: (pad2 t.Second ++ ([] : List Char))))))))))) := by
    simp [formatGoTime]
  have hD99 : t.Day ≤ 99 := le_trans hD2 (le_trans (daysInMonth_le _ _) (by omega))
  rw [e]
  unfold goTimeParse
  simp only [Option.bind_eq_bind, Option.some_bind, parseFixed4_pad4 hY, litP_cons,
    parseFixed2_pad2 (show t.Month ≤ 99 by omega),
    parseFixed2_pad2 hD99,
    parseNum12_pad2 (show t.Hour ≤ 99 by omega),
    parseFixed2_pad2 (show t.Minute ≤ 99 by omega),
    parseFixed2_pad2 (show t.Second ≤ 99 by omega)]
  rw [if_pos ⟨trivial, hM1, hM2, hD1, hD2, by omega, hMi, hS⟩]
  rfl

/-! ## Round-trip of the generated filenames -/

theorem append_ne_nil_right {l r : List Char} (h : r ≠ []) : l ++ r ≠ [] :=
  fun hc => h (List.append_eq_nil.mp hc).2

theorem parse_generated_tagged (db tier : String) (t : GoTime)
    (hdb : ValidNamePart db) (htier : ValidNamePart tier) (ht : ValidTime t) :
    ParseBackupFilename (db ++ "--" ++ tier ++ "--" ++
        String.mk (formatGoTime 'T' t) ++ ".backup") =
      .ok ⟨db, tier, truncSec t, true⟩ := by
  obtain ⟨hdb1, hdb2, hdb3⟩ := hdb
  obtain ⟨ht1, ht2, ht3⟩ := htier
  set F := formatGoTime 'T' t with hF
  have e : (db ++ "--" ++ tier ++ "--" ++ String.mk F ++ ".backup").data =
      db.data ++ ('-' :: '-' :: (tier.data ++ ('-' :: '-' :: (F ++ ('.' :: "backup".data))))) := by
    show (db.data ++ "--".data ++ tier.data ++ "--".data ++ F ++ ".backup".data) = _
    simp [List.append_assoc]
  have epre : (db ++ "--" ++ tier ++ "--" ++ String.mk F ++ ".backup").data =
      (db.data ++ ('-' :: '-' :: (tier.data ++ ('-' :: '-' :: F)))) ++ ('.' :: "backup".data) := by
    rw [e]
    simp [List.append_assoc]
  have hFslash : '/' ∉ F := slash_not_mem_format (by decide) t
  have hslash : '/' ∉ (db ++ "--" ++ tier ++ "--" ++ String.mk F ++ ".backup").data := by
    rw [e]
    intro hmem
    rcases List.mem_append.mp hmem with h | h
    · exact hdb3 h
    · simp only [List.mem_cons] at h
      rcases h with h | h | h
      · exact absurd h (by decide)
      · exact absurd h (by decide)
      · rcases List.mem_append.mp h with h | h
        · exact ht3 h
        · simp only [List.mem_cons] at h
          rcases h with h | h | h
          · exact absurd h (by decide)
          · exact absurd h (by decide)
          · rcases List.mem_append.mp h with h | h
            · exact hFslash h
            · simp only [List.mem_cons] at h
              rcases h with h | h
              · exact absurd h (by decide)
              · exact absurd h (by decide)
  have hne : (db ++ "--" ++ tier ++ "--" ++ String.mk F ++ ".backup").data ≠ [] := by
    rw [e]
    exact append_ne_nil_right (by simp)
  have hbase : goBaseL (db ++ "--" ++ tier ++ "--" ++ String.mk F ++ ".backup").data =
      (db ++ "--" ++ tier ++ "--" ++ String.mk F ++ ".backup").data :=
    goBaseL_no_slash hne hslash
  have hcontains : containsDD (db ++ "--" ++ tier ++ "--" ++ String.mk F ++ ".backup").data = true := by
    rw [e]
    exact containsDD_append_dd _ _
  unfold ParseBackupFilename
  rw [hbase, if_pos hcontains]
  unfold parseNewFormatWithTier
  rw [epre, goExtL_backup, trimSuffixL_append]
  dsimp only
  rw [splitDD_append_dd _ hdb1 hdb2, splitDD_append_dd _ ht1 ht2,
    splitDD_no_dd (containsDD_format 'T' t)]
  simp [goTimeParse_format ht 'T']

theorem parse_generated_untagged (db : String) (t : GoTime)
    (hdb : ValidNamePart db) (ht : ValidTime t) :
    ParseBackupFilename (db ++ "--" ++ String.mk (formatGoTime 'T' t) ++ ".backup") =
      .ok ⟨db, "", truncSec t, false⟩ := by
  obtain ⟨hdb1, hdb2, hdb3⟩ := hdb
  have e : (db ++ "--" ++ String.mk (formatGoTime 'T' t) ++ ".backup").data =
      db.data ++ ('-' :: '-' :: (formatGoTime 'T' t ++ ('.' :: "backup".data))) := by
    show (db.data ++ "--".data ++ formatGoTime 'T' t ++ ".backup".data) = _
    simp [List.append_assoc]
  have epre : (db ++ "--" ++ String.mk (formatGoTime 'T' t) ++ ".backup").data =
      (db.data ++ ('-' :: '-' :: formatGoTime 'T' t)) ++ ('.' :: "backup".data) := by
    rw [e]
    simp [List.append_assoc]
  have hFslash : '/' ∉ formatGoTime 'T' t := slash_not_mem_format (by decide) t
  have hslash : '/' ∉ (db ++ "--" ++ String.mk (formatGoTime 'T' t) ++ ".backup").data := by
    rw [e]
    intro hmem
    rcases List.mem_append.mp hmem with h | h
    · exact hdb3 h
    · simp only [List.mem_cons] at h
      rcases h with h | h | h
      · exact absurd h (by decide)
      · exact absurd h (by decide)
      · rcases List.mem_append.mp h with h | h
        · exact hFslash h
        · simp only [List.mem_cons] at h
          rcases h with h | h
          · exact absurd h (by decide)
          · exact absurd h (by decide)
  have hne : (db ++ "--" ++ String.mk (formatGoTime 'T' t) ++ ".backup").data ≠ [] := by
    rw [e]
    exact append_ne_nil_right (by simp)
  have hbase := goBaseL_no_slash hne hslash
  have hcontains : containsDD (db ++ "--" ++ String.mk (formatGoTime 'T' t) ++ ".backup").data = true := by
    rw [e]
    exact containsDD_append_dd _ _
  unfold ParseBackupFilename
  rw [hbase, if_pos hcontains]
  unfold parseNewFormatWithTier
  rw [epre, goExtL_backup, trimSuffixL_append]
  dsimp only
  rw [splitDD_append_dd _ hdb1 hdb2, splitDD_no_dd (containsDD_format 'T' t)]
  simp [goTimeParse_format ht 'T']

/-! ## Legacy-format parsing with underscores in the database name -/

theorem digitChar_ne_uscore (n : Nat) : Nat.digitChar n ≠ '_' := by
  rcases Nat.lt_or_ge n 16 with h | h
  · revert h
    have hball : ∀ m < 16, Nat.digitChar m ≠ '_' := by decide
    exact hball n
  · rw [digitChar_ge_16 h]
    decide

theorem uscore_not_mem_pad2 (n : Nat) : '_' ∉ pad2 n := by
  simp [pad2]
  exact ⟨fun h => digitChar_ne_uscore _ h.symm, fun h => digitChar_ne_uscore _ h.symm⟩

theorem uscore_not_mem_pad4 (n : Nat) : '_' ∉ pad4 n := by
  simp [pad4]
  refine ⟨?_, ?_, ?_, ?_⟩ <;> exact fun h => digitChar_ne_uscore _ h.symm

theorem formatGoTime_split (t : GoTime) :
    formatGoTime '_' t = datePartFmt t ++ '_' :: timePartFmt t := by
  simp [formatGoTime, datePartFmt, timePartFmt, List.append_assoc]

theorem uscore_not_mem_datePart (t : GoTime) : '_' ∉ datePartFmt t := by
  simp [datePartFmt, List.mem_append, List.mem_cons, uscore_not_mem_pad2,
    uscore_not_mem_pad4]

theorem uscore_not_mem_timePart (t : GoTime) : '_' ∉ timePartFmt t := by
  simp [timePartFmt, List.mem_append, List.mem_cons, uscore_not_mem_pad2]

theorem parse_generated_legacy (db : String) (t : GoTime)
    (hdb : ValidLegacyDbName db) (ht : ValidTime t) :
    ParseBackupFilename (db ++ "_" ++ String.mk (formatGoTime '_' t) ++ ".backup") =
      .ok ⟨db, "", truncSec t, false⟩ := by
  obtain ⟨hdb1, hdb3⟩ := hdb
  have hcb : containsDD ('.' :: "backup".data) = false := by decide
  have e : (db ++ "_" ++ String.mk (formatGoTime '_' t) ++ ".backup").data =
      db.data ++ '_' :: (formatGoTime '_' t ++ ('.' :: "backup".data)) := by
    show (db.data ++ "_".data ++ formatGoTime '_' t ++ ".backup".data) = _
    simp [List.append_assoc]
  have epre : (db ++ "_" ++ String.mk (formatGoTime '_' t) ++ ".backup").data =
      (db.data ++ '_' :: formatGoTime '_' t) ++ ('.' :: "backup".data) := by
    rw [e]
    simp [List.append_assoc]
  have hFslash : '/' ∉ formatGoTime '_' t := slash_not_mem_format (by decide) t
  have hslash : '/' ∉ (db ++ "_" ++ String.mk (formatGoTime '_' t) ++ ".backup").data := by
    rw [e]
    intro hmem
    rcases List.mem_append.mp hmem with h | h
    · exact hdb3 h
    · simp only [List.mem_cons] at h
      rcases h with h | h
      · exact absurd h (by decide)
      · rcases List.mem_append.mp h with h | h
        · exact hFslash h
        · simp only [List.mem_cons] at h
          rcases h with h | h
          · exact absurd h (by decide)
          · exact absurd h (by decide)
  have hne : (db ++ "_" ++ String.mk (formatGoTime '_' t) ++ ".backup").data ≠ [] := by
    rw [e]
    exact append_ne_nil_right (by simp)
  have hbase := goBaseL_no_slash hne hslash
  have hnc : containsDD (db ++ "_" ++ String.mk (formatGoTime '_' t) ++ ".backup").data = false := by
    rw [e, containsDD_append, hdb1, containsDD_cons, containsDD_append,
      containsDD_format, hcb, format_getLast]
    simp [decide_digitChar_dash]
  unfold ParseBackupFilename
  rw [hbase, if_neg (by rw [hnc]; exact Bool.false_ne_true)]
  have hsplitFull : splitCh '_' (db ++ "_" ++ String.mk (formatGoTime '_' t) ++ ".backup").data =
      splitCh '_' db.data ++ [datePartFmt t, timePartFmt t ++ ('.' :: "backup".data)] := by
    rw [e, formatGoTime_split]
    rw [show (datePartFmt t ++ '_' :: timePartFmt t) ++ ('.' :: "backup".data) =
      datePartFmt t ++ '_' :: (timePartFmt t ++ ('.' :: "backup".data)) from by
        simp [List.append_assoc]]
    rw [splitCh_append, splitCh_append]
    rw [splitCh_no_sep (uscore_not_mem_datePart t)]
    rw [splitCh_no_sep (a := timePartFmt t ++ ('.' :: "backup".data)) (by
      intro hmem
      rcases List.mem_append.mp hmem with h | h
      · exact uscore_not_mem_timePart t h
      · simp only [List.mem_cons] at h
        rcases h with h | h
        · exact absurd h (by decide)
        · exact absurd h (by decide))]
    rfl
  obtain ⟨u0, urest, hUrev⟩ : ∃ a l, (splitCh '_' db.data).reverse = a :: l := by
    cases hU : (splitCh '_' db.data).reverse with
    | nil =>
      exact absurd (by simpa using congrArg List.reverse hU) (splitCh_ne_nil '_' db.data)
    | cons a l => exact ⟨a, l, rfl⟩
  have hext : goExtL (db ++ "_" ++ String.mk (formatGoTime '_' t) ++ ".backup").data =
      '.' :: "backup".data := by
    rw [epre]
    exact goExtL_backup _
  have hold : parseOldFormat (db ++ "_" ++ String.mk (formatGoTime '_' t) ++ ".backup").data =
      .ok (truncSec t) := by
    unfold parseOldFormat
    rw [hsplitFull]
    rw [show (splitCh '_' db.data ++ [datePartFmt t, timePartFmt t ++ ('.' :: "backup".data)]).reverse =
      (timePartFmt t ++ ('.' :: "backup".data)) :: datePartFmt t :: (splitCh '_' db.data).reverse from by
        simp]
    rw [hUrev]
    dsimp only
    rw [hext, trimSuffixL_append, ← formatGoTime_split, goTimeParse_format ht '_']
  rw [hold]
  have htrim : trimSuffixL (db ++ "_" ++ String.mk (formatGoTime '_' t) ++ ".backup").data
      (goExtL (db ++ "_" ++ String.mk (formatGoTime '_' t) ++ ".backup").data) =
      db.data ++ '_' :: formatGoTime '_' t := by
    rw [hext, epre, trimSuffixL_append]
  have hsplitTrim : splitCh '_' (db.data ++ '_' :: formatGoTime '_' t) =
      splitCh '_' db.data ++ [datePartFmt t, timePartFmt t] := by
    rw [formatGoTime_split, splitCh_append, splitCh_append,
      splitCh_no_sep (uscore_not_mem_datePart t), splitCh_no_sep (uscore_not_mem_timePart t)]
    rfl
  rw [htrim, hsplitTrim]
  dsimp only
  have hlen : (splitCh '_' db.data ++ [datePartFmt t, timePartFmt t]).length - 2 =
      (splitCh '_' db.data).length := by
    simp
  rw [hlen, List.take_left, joinCh_splitCh]

/-! ## Claim C4 -/

/-- C4: for every valid (database name, tier, timestamp) triple, parsing
the filename produced by `GenerateBackupFilenameWithTier` returns exactly
that database name, that tier, that timestamp truncated to seconds, and
`HasTier = true`; likewise parsing the untagged filename produced by
`GenerateBackupFilename` returns the original database name and
timestamp with `HasTier = false`. -/
theorem claim_C4_codec_roundtrip (db tier : String) (t : GoTime)
    (hdb : ValidNamePart db) (htier : ValidNamePart tier) (ht : ValidTime t) :
    ParseBackupFilename (GenerateBackupFilenameWithTier "" db tier t) =
      .ok ⟨db, tier, truncSec t, true⟩ ∧
    ParseBackupFilename (GenerateBackupFilename "" db t) =
      .ok ⟨db, "", truncSec t, false⟩ := by
  constructor
  · rw [show GenerateBackupFilenameWithTier "" db tier t =
        db ++ "--" ++ tier ++ "--" ++ String.mk (formatGoTime 'T' t) ++ ".backup" from by
      simp [GenerateBackupFilenameWithTier, joinPath]]
    exact parse_generated_tagged db tier t hdb htier ht
  · rw [show GenerateBackupFilename "" db t =
        db ++ "--" ++ String.mk (formatGoTime 'T' t) ++ ".backup" from by
      simp [GenerateBackupFilename, joinPath]]
    exact parse_generated_untagged db t hdb ht

/-- C4 witness: the round trip evaluated at a concrete triple, with a
non-zero sub-second component to exhibit the truncation. -/
theorem claim_C4_codec_roundtrip_witness :
    ValidNamePart "mydb" ∧ ValidNamePart "daily" ∧
      ValidTime ⟨2024, 12, 17, 14, 30, 45, 123⟩ ∧
      (ParseBackupFilename (GenerateBackupFilenameWithTier "" "mydb" "daily"
          ⟨2024, 12, 17, 14, 30, 45, 123⟩) =
        .ok ⟨"mydb", "daily", truncSec ⟨2024, 12, 17, 14, 30, 45, 123⟩, true⟩ ∧
      ParseBackupFilename (GenerateBackupFilename "" "mydb"
          ⟨2024, 12, 17, 14, 30, 45, 123⟩) =
        .ok ⟨"mydb", "", truncSec ⟨2024, 12, 17, 14, 30, 45, 123⟩, false⟩) :=
  ⟨by decide, by decide, by decide,
    claim_C4_codec_roundtrip "mydb" "daily" ⟨2024, 12, 17, 14, 30, 45, 123⟩
      (by decide) (by decide) (by decide)⟩

/-! ## Claim C8 -/

/-- C8: for every legacy-format filename `dbname_YYYY-MM-DD_HH-MM-SS.backup`,
including database names containing underscores, decoding takes the last
two underscore-delimited segments as date and time and everything before
them as the database name; in particular
`ExtractDateFromFilename "my_prod_db_2024-12-17_14-30-45.backup"`
succeeds with the timestamp 2024-12-17T14:30:45. -/
theorem claim_C8_legacy_underscores (db : String) (t : GoTime)
    (hdb : ValidLegacyDbName db) (ht : ValidTime t) :
    ParseBackupFilename (db ++ "_" ++ String.mk (formatGoTime '_' t) ++ ".backup") =
      .ok ⟨db, "", truncSec t, false⟩ ∧
    ExtractDateFromFilename "my_prod_db_2024-12-17_14-30-45.backup" =
      .ok ⟨2024, 12, 17, 14, 30, 45, 0⟩ := by
  refine ⟨parse_generated_legacy db t hdb ht, ?_⟩
  rfl

/-- C8 witness: the legacy round trip at a database name that itself
contains underscores. -/
theorem claim_C8_legacy_underscores_witness :
    ValidLegacyDbName "my_prod_db" ∧ ValidTime ⟨2024, 12, 17, 14, 30, 45, 0⟩ ∧
      (ParseBackupFilename ("my_prod_db" ++ "_" ++
          String.mk (formatGoTime '_' ⟨2024, 12, 17, 14, 30, 45, 0⟩) ++ ".backup") =
        .ok ⟨"my_prod_db", "", truncSec ⟨2024, 12, 17, 14, 30, 45, 0⟩, false⟩ ∧
      ExtractDateFromFilename "my_prod_db_2024-12-17_14-30-45.backup" =
        .ok ⟨2024, 12, 17, 14, 30, 45, 0⟩) :=
  ⟨by decide, by decide,
    claim_C8_legacy_underscores "my_prod_db" ⟨2024, 12, 17, 14, 30, 45, 0⟩
      (by decide) (by decide)⟩

/-! ## Claim C7 -/

/-- C7 (amended): for every filename whose timestamp field is malformed
or which has too few separator-delimited segments,
`ParseBackupFilename` and `ExtractDateFromFilename` return an error —
they never fall back to a default timestamp.  (The original claim's
final clause — that no input at all can succeed with the zero/epoch
timestamp — fails: a filename that literally encodes
`0001-01-01T00-00-00` succeeds with Go's zero time; see the
counterexample.)  The four cases cover the code's parse paths: new
format with a part count other than 2 or 3; new format whose timestamp
part does not parse; old format with fewer than 3 underscore segments;
old format whose reconstructed `date_time` string does not parse. -/
theorem claim_C7_malformed_always_error (s : String) :
    ((containsDD (goBaseL s.data) = true →
        (splitDD (trimSuffixL (goBaseL s.data) (goExtL (goBaseL s.data)))).length ≠ 2 →
        (splitDD (trimSuffixL (goBaseL s.data) (goExtL (goBaseL s.data)))).length ≠ 3 →
        ∀ c, ParseBackupFilename s ≠ .ok c) ∧
      (containsDD (goBaseL s.data) = true →
        ∀ ts, (splitDD (trimSuffixL (goBaseL s.data) (goExtL (goBaseL s.data)))).getLast? = some ts →
        goTimeParse 'T' ts = none →
        ∀ c, ParseBackupFilename s ≠ .ok c) ∧
      (containsDD (goBaseL s.data) = false →
        (splitCh '_' (goBaseL s.data)).length < 3 →
        ∀ c, ParseBackupFilename s ≠ .ok c) ∧
      (containsDD (goBaseL s.data) = false →
        ∀ tp dp rest, (splitCh '_' (goBaseL s.data)).reverse = tp :: dp :: rest →
        goTimeParse '_' (dp ++ '_' :: trimSuffixL tp (goExtL (goBaseL s.data))) = none →
        ∀ c, ParseBackupFilename s ≠ .ok c)) ∧
    ((∀ c, ParseBackupFilename s ≠ .ok c) →
      ∀ t, ExtractDateFromFilename s ≠ .ok t) := by
  constructor
  · refine ⟨?_, ?_, ?_, ?_⟩
    · intro hdd h2 h3 c
      unfold ParseBackupFilename parseNewFormatWithTier
      rw [if_pos hdd]
      rcases hp : splitDD (trimSuffixL (goBaseL s.data) (goExtL (goBaseL s.data))) with
        _ | ⟨p1, _ | ⟨p2, _ | ⟨p3, _ | ⟨p4, ps⟩⟩⟩⟩ <;>
        simp_all
    · intro hdd ts hlast hts c
      unfold ParseBackupFilename parseNewFormatWithTier
      rw [if_pos hdd]
      rcases hp : splitDD (trimSuffixL (goBaseL s.data) (goExtL (goBaseL s.data))) with
        _ | ⟨p1, _ | ⟨p2, _ | ⟨p3, _ | ⟨p4, ps⟩⟩⟩⟩ <;>
        simp_all
    · intro hdd hlen c
      unfold ParseBackupFilename parseOldFormat
      rw [if_neg (by rw [hdd]; exact Bool.false_ne_true)]
      rcases hp : (splitCh '_' (goBaseL s.data)).reverse with _ | ⟨tp, _ | ⟨dp, _ | ⟨x, rest⟩⟩⟩
      · simp
      · simp
      · simp
      · exfalso
        have : (splitCh '_' (goBaseL s.data)).length = (tp :: dp :: x :: rest).length := by
          rw [← hp, List.length_reverse]
        simp at this
        omega
    · intro hdd tp dp rest hrev hts c
      unfold ParseBackupFilename parseOldFormat
      rw [if_neg (by rw [hdd]; exact Bool.false_ne_true)]
      rw [hrev]
      cases rest with
      | nil => simp
      | cons x rest2 =>
        dsimp only
        rw [hts]
        simp
  · intro h t hok
    unfold ExtractDateFromFilename at hok
    rcases hp : ParseBackupFilename s with e | c
    · rw [hp] at hok
      simp at hok
    · exact h c hp

/-- C7 witness: the amended theorem applied to two concrete malformed
filenames — a new-format name with an unparseable timestamp and a name
with too few segments. -/
theorem claim_C7_malformed_always_error_witness :
    (∀ c, ParseBackupFilename "mydb--invalid-date.backup" ≠ Except.ok c) ∧
    (∀ t, ExtractDateFromFilename "database.backup" ≠ Except.ok t) :=
  ⟨fun c => (claim_C7_malformed_always_error "mydb--invalid-date.backup").1.2.1
      (by decide) ("invalid-date".data) (by decide) (by decide) c,
    (claim_C7_malformed_always_error "database.backup").2
      (fun c => (claim_C7_malformed_always_error "database.backup").1.2.2.1
        (by decide) (by decide) c)⟩

/-- C7 counterexample: the original claim also asserts that for no input
do the decoders succeed while returning the zero/epoch timestamp; but a
filename that literally encodes Go's zero time `0001-01-01T00-00-00`
parses successfully and returns exactly that zero timestamp. -/
theorem claim_C7_zero_timestamp_counterexample :
    ParseBackupFilename "db--0001-01-01T00-00-00.backup" =
      .ok ⟨"db", "", zeroGoTime, false⟩ ∧
    ExtractDateFromFilename "db--0001-01-01T00-00-00.backup" = .ok zeroGoTime ∧
    zeroGoTime = ⟨1, 1, 1, 0, 0, 0, 0⟩ :=
  ⟨rfl, rfl, rfl⟩

/-! ## Claim C1 -/

/-- C1: the claim fails on the code — `ApplyRetentionWithBackend` has no
retention-0 guard, so for a tier configured with retention 0 and a
single listed backup it deletes that (only) file: with retention 0 the
guard `len(files) <= tier.Retention` is false for any non-empty listing
and `files[0:]` — every file — is deleted.  This contradicts the
documented semantics (`0 = unlimited` in `config.RetentionTier`) and the
sibling age-based engine, whose explicit `retention == 0` branch keeps
all backups (second and third conjuncts: retention 0 and an absent tier
delete nothing there). -/
theorem claim_C1_retention_zero_backend_bug :
    (ApplyRetentionWithBackend
        (fun _ => .ok [⟨"testdb--daily--2024-01-02T00-00-00.backup", 1024, 100⟩])
        "testdb" [⟨"daily", 0⟩]).1 =
      ["testdb--daily--2024-01-02T00-00-00.backup"] ∧
    ApplyRetention [⟨"some/backup/path", 0, ""⟩] [⟨"hourly", 0⟩] 100 = [] ∧
    ApplyRetention [⟨"some/backup/path", 0, ""⟩] [] 100 = [] :=
  ⟨rfl, rfl, rfl⟩

/-! ## Claim C3 -/

theorem sortByTime_eq_self {l : List BackupFile}
    (h : List.Pairwise (fun a b => a.Timestamp < b.Timestamp) l) :
    sortByTime l = l := by
  induction l with
  | nil => rfl
  | cons x xs ih =>
    rw [List.pairwise_cons] at h
    rw [sortByTime, ih h.2]
    cases xs with
    | nil => rfl
    | cons y ys =>
      rw [insertByTime, if_pos (h.1 y (by simp))]

theorem categorizeTier_mem_six (backupTime now : Int) :
    CategorizeTier backupTime now ∈ sixTierNames := by
  unfold CategorizeTier
  dsimp only
  repeat' split
  all_goals decide

theorem tierDeletions_empty_of_ne {retentionTiers : List RetentionTier} {now : Int}
    {backups : List BackupFile} {tn t' : TierName} (hne : t' ≠ tn)
    (hcat : ∀ b ∈ backups, CategorizeTier b.Timestamp now = tn) :
    tierDeletions retentionTiers now backups t' = [] := by
  unfold tierDeletions
  rw [show backups.filter (fun b => CategorizeTier b.Timestamp now = t') = [] from by
    rw [List.filter_eq_nil_iff]
    intro b hb
    rw [hcat b hb]
    simpa using fun h => hne h.symm]
  simp

theorem applyRetention_single_tier (backups : List BackupFile) (tn : TierName)
    (N : Int) (now : Int) (hne : backups ≠ [])
    (hcat : ∀ b ∈ backups, CategorizeTier b.Timestamp now = tn) :
    ApplyRetention backups [⟨tn, N⟩] now = tierDeletions [⟨tn, N⟩] now backups tn := by
  obtain ⟨b0, hb0⟩ := List.exists_mem_of_ne_nil backups hne
  have htn : tn ∈ sixTierNames := hcat b0 hb0 ▸ categorizeTier_mem_six b0.Timestamp now
  unfold ApplyRetention
  rw [if_neg hne]
  have hempty : ∀ t', t' ≠ tn → tierDeletions [⟨tn, N⟩] now backups t' = [] :=
    fun t' h => tierDeletions_empty_of_ne h hcat
  fin_cases htn
  · simp only [sixTierNames, List.map_cons, List.map_nil, List.flatten_cons,
      List.flatten_nil, List.append_nil, List.nil_append]
    rw [hempty "daily" (by decide), hempty "weekly" (by decide), hempty "monthly" (by decide), hempty "quarterly" (by decide), hempty "yearly" (by decide)]
    simp
  · simp only [sixTierNames, List.map_cons, List.map_nil, List.flatten_cons,
      List.flatten_nil, List.append_nil, List.nil_append]
    rw [hempty "hourly" (by decide), hempty "weekly" (by decide), hempty "monthly" (by decide), hempty "quarterly" (by decide), hempty "yearly" (by decide)]
    simp
  · simp only [sixTierNames, List.map_cons, List.map_nil, List.flatten_cons,
      List.flatten_nil, List.append_nil, List.nil_append]
    rw [hempty "hourly" (by decide), hempty "daily" (by decide), hempty "monthly" (by decide), hempty "quarterly" (by decide), hempty "yearly" (by decide)]
    simp
  · simp only [sixTierNames, List.map_cons, List.map_nil, List.flatten_cons,
      List.flatten_nil, List.append_nil, List.nil_append]
    rw [hempty "hourly" (by decide), hempty "daily" (by decide), hempty "weekly" (by decide), hempty "quarterly" (by decide), hempty "yearly" (by decide)]
    simp
  · simp only [sixTierNames, List.map_cons, List.map_nil, List.flatten_cons,
      List.flatten_nil, List.append_nil, List.nil_append]
    rw [hempty "hourly" (by decide), hempty "daily" (by decide), hempty "weekly" (by decide), hempty "monthly" (by decide), hempty "yearly" (by decide)]
    simp
  · simp only [sixTierNames, List.map_cons, List.map_nil, List.flatten_cons,
      List.flatten_nil, List.append_nil, List.nil_append]
    rw [hempty "hourly" (by decide), hempty "daily" (by decide), hempty "weekly" (by decide), hempty "monthly" (by decide), hempty "quarterly" (by decide)]
    simp

theorem tierDeletions_single (backups : List BackupFile) (tn : TierName)
    (N : Int) (now : Int) (hN : 0 < N) (hne : backups ≠ [])
    (hcat : ∀ b ∈ backups, CategorizeTier b.Timestamp now = tn)
    (hasc : List.Pairwise (fun a b => a.Timestamp < b.Timestamp) backups) :
    tierDeletions [⟨tn, N⟩] now backups tn =
      if N < (backups.length : Int) then
        (backups.take (backups.length - N.toNat)).map (fun b => b.Path)
      else [] := by
  unfold tierDeletions
  rw [show backups.filter (fun b => CategorizeTier b.Timestamp now = tn) = backups from by
    rw [List.filter_eq_self]
    intro b hb
    simp [hcat b hb]]
  rw [if_neg hne]
  rw [show lookupRetention [⟨tn, N⟩] tn = some N from by simp [lookupRetention]]
  dsimp only
  rw [if_neg (show ¬N = 0 by omega), sortByTime_eq_self hasc]

/-- C3: for every tier with retention N > 0 and a backend listing of M
tagged files sorted newest-first, rotation deletes nothing when M ≤ N,
and deletes exactly the M − N oldest entries (`files[N:]`), leaving the
N newest untouched, when M > N; the age-based `ApplyRetention` does the
same per age-classified tier (stated for a group of backups that all
classify into the configured tier, listed oldest-first). -/
theorem claim_C3_retention_invariant
    (t : String) (N : Int) (hN : 0 < N) (db : String) (files : List FileInfo)
    (hsorted : List.Pairwise (fun a b => b.ModTime ≤ a.ModTime) files)
    (backups : List BackupFile) (tn : TierName) (now : Int) (hne : backups ≠ [])
    (hcat : ∀ b ∈ backups, CategorizeTier b.Timestamp now = tn)
    (hasc : List.Pairwise (fun a b => a.Timestamp < b.Timestamp) backups) :
    ((files.length : Int) ≤ N →
      (ApplyRetentionWithBackend (fun _ => .ok files) db [⟨t, N⟩]).1 = []) ∧
    (N < (files.length : Int) →
      (ApplyRetentionWithBackend (fun _ => .ok files) db [⟨t, N⟩]).1 =
        (files.drop N.toNat).map (fun f => f.Path) ∧
      (files.drop N.toNat).length = files.length - N.toNat ∧
      (∀ f ∈ files.drop N.toNat, ∀ g ∈ files.take N.toNat, f.ModTime ≤ g.ModTime)) ∧
    (ApplyRetention backups [⟨tn, N⟩] now =
      if N < (backups.length : Int) then
        (backups.take (backups.length - N.toNat)).map (fun b => b.Path)
      else []) := by
  refine ⟨?_, ?_, ?_⟩
  · intro hle
    simp [ApplyRetentionWithBackend, retentionTierBackendDeletes, hle]
  · intro hgt
    refine ⟨?_, by simp, ?_⟩
    · simp [ApplyRetentionWithBackend, retentionTierBackendDeletes, not_le.mpr hgt]
    · intro f hf g hg
      have hpair : List.Pairwise (fun a b => b.ModTime ≤ a.ModTime)
          (files.take N.toNat ++ files.drop N.toNat) := by
        rw [List.take_append_drop]
        exact hsorted
      exact (List.pairwise_append.mp hpair).2.2 g hg f hf
  · rw [applyRetention_single_tier backups tn N now hne hcat,
      tierDeletions_single backups tn N now hN hne hcat hasc]

/-- C3 witness: ten backend files with retention 7 lose exactly the
three oldest; three files with retention 7 lose none; three age-grouped
hourly backups with retention 2 lose the oldest one. -/
theorem claim_C3_retention_invariant_witness :
    ((([⟨"f0", 10, 100⟩, ⟨"f1", 10, 99⟩, ⟨"f2", 10, 98⟩] : List FileInfo).length : Int) ≤ 7 ∧
      (ApplyRetentionWithBackend
        (fun _ => .ok [⟨"f0", 10, 100⟩, ⟨"f1", 10, 99⟩, ⟨"f2", 10, 98⟩]) "db"
        [⟨"daily", 7⟩]).1 = []) ∧
    ((2 : Int) < (([⟨"g0", 10, 100⟩, ⟨"g1", 10, 99⟩, ⟨"g2", 10, 98⟩] : List FileInfo).length : Int) ∧
      (ApplyRetentionWithBackend
        (fun _ => .ok [⟨"g0", 10, 100⟩, ⟨"g1", 10, 99⟩, ⟨"g2", 10, 98⟩]) "db"
        [⟨"daily", 2⟩]).1 = ["g2"]) ∧
    ApplyRetention [⟨"b0", 100, ""⟩, ⟨"b1", 200, ""⟩, ⟨"b2", 300, ""⟩]
      [⟨"hourly", 2⟩] 400 = ["b0"] := by
  have h1 := claim_C3_retention_invariant "daily" 7 (by decide) "db"
    [⟨"f0", 10, 100⟩, ⟨"f1", 10, 99⟩, ⟨"f2", 10, 98⟩] (by decide)
    [⟨"b0", 100, ""⟩] "hourly" 400 (by decide)
    (by intro b hb; fin_cases hb; decide) (by decide)
  have h2 := claim_C3_retention_invariant "daily" 2 (by decide) "db"
    [⟨"g0", 10, 100⟩, ⟨"g1", 10, 99⟩, ⟨"g2", 10, 98⟩] (by decide)
    [⟨"b0", 100, ""⟩, ⟨"b1", 200, ""⟩, ⟨"b2", 300, ""⟩] "hourly" 400 (by decide)
    (by intro b hb; fin_cases hb <;> decide) (by decide)
  refine ⟨⟨by decide, h1.1 (by decide)⟩, ⟨by decide, ?_⟩, ?_⟩
  · exact (h2.2.1 (by decide)).1
  · rw [h2.2.2]
    decide

/-! ## Claim C2 -/

/-- C2: in every run of `BackupDatabase` in which no tier completed
(`TiersCompleted = []`), the rotation engine is never invoked: the list
of backends passed to `ApplyRetentionWithBackend` is empty, so no
existing backup can be deleted by that run. -/
theorem claim_C2_no_rotation_when_all_failed
    (dueTiers backends : List String) (retentionTiers : List RetentionTier)
    (p1 p2 p3 p4 : Bool) (outcome : String → TierOutcome)
    (hfail : (BackupDatabase dueTiers backends retentionTiers
      p1 p2 p3 p4 outcome).TiersCompleted = []) :
    (BackupDatabase dueTiers backends retentionTiers
      p1 p2 p3 p4 outcome).rotationCalls = [] := by
  rcases hE : execTierLoop outcome dueTiers with ⟨comp, fl⟩
  unfold BackupDatabase at hfail ⊢
  rw [hE] at hfail ⊢
  split_ifs at hfail ⊢ <;> simp_all

/-- C2 witness: a run where the only due tier's dump failed reaches the
rotation guard with an empty `TiersCompleted` and issues no rotation. -/
theorem claim_C2_no_rotation_when_all_failed_witness :
    (BackupDatabase ["daily"] ["b1", "b2"] [⟨"daily", 7⟩] true true true true
      (fun _ => .dumpFailed)).TiersCompleted = [] ∧
    (BackupDatabase ["daily"] ["b1", "b2"] [⟨"daily", 7⟩] true true true true
      (fun _ => .dumpFailed)).rotationCalls = [] :=
  ⟨by decide,
    claim_C2_no_rotation_when_all_failed ["daily"] ["b1", "b2"] [⟨"daily", 7⟩]
      true true true true (fun _ => .dumpFailed) (by decide)⟩

/-! ## Claim C9 -/

/-- C9: the claim fails on the code.  The SSH backend's `Write` creates
the remote file and copies into it with no cleanup on a copy error, so a
failed write leaves a non-zero-byte partial object at `destPath` that
both `List` (the partial file is non-empty, so the zero-byte filter does
not hide it) and `Exists` report as present.  The local backend, by
contrast, removes the partial file in the same scenario (last two
conjuncts), which is what the spec demands of every backend. -/
theorem claim_C9_ssh_failed_write_leaves_partial :
    (sshWrite [] "mydb--daily--2024-12-17T14-30-45.backup" 1024 (.copyFail 42)).err = true ∧
    listReports (sshWrite [] "mydb--daily--2024-12-17T14-30-45.backup" 1024
      (.copyFail 42)).fs "mydb--daily--2024-12-17T14-30-45.backup" = true ∧
    existsReports (sshWrite [] "mydb--daily--2024-12-17T14-30-45.backup" 1024
      (.copyFail 42)).fs "mydb--daily--2024-12-17T14-30-45.backup" = true ∧
    (localWrite [] "mydb--daily--2024-12-17T14-30-45.backup" 1024 (.copyFail 42)).err = true ∧
    existsReports (localWrite [] "mydb--daily--2024-12-17T14-30-45.backup" 1024
      (.copyFail 42)).fs "mydb--daily--2024-12-17T14-30-45.backup" = false :=
  ⟨rfl, rfl, rfl, rfl, rfl⟩

/-! ## Retry policy lemmas -/

theorem retryable_not_critical {e : GoErr} (h : IsRetryable e = true) :
    IsCritical e = false := by
  cases e <;> simp_all [IsRetryable, IsCritical]

theorem durMulFactor_int (d : Int) (m : Nat) : durMulFactor d (m : ℚ) = d * m := by
  unfold durMulFactor
  norm_cast
  show ((Int.cast (d * (m : Int)) : ℚ)).num / (((Int.cast (d * (m : Int)) : ℚ)).den : Int) =
    d * (m : Int)
  rw [Rat.num_intCast, Rat.den_intCast]
  simp

theorem minCap_pow {d0 M : Int} {m : Nat} (h0 : 0 ≤ d0) (hdM : d0 ≤ M) (hm : 1 ≤ m)
    (k : Nat) :
    min (min (d0 * (m : Int)) M * (m : Int) ^ k) M = min (d0 * (m : Int) ^ (k + 1)) M := by
  have hm' : (1 : Int) ≤ (m : Int) := by exact_mod_cast hm
  have hpow : (1 : Int) ≤ (m : Int) ^ k := by
    calc (1 : Int) = 1 ^ k := (one_pow k).symm
      _ ≤ (m : Int) ^ k := pow_le_pow_left₀ (by norm_num) hm' k
  have hM0 : (0 : Int) ≤ M := le_trans h0 hdM
  rcases le_or_lt (d0 * (m : Int)) M with h | h
  · rw [min_eq_left h, show d0 * (m : Int) * (m : Int) ^ k = d0 * (m : Int) ^ (k + 1) from
      by ring]
  · rw [min_eq_right h.le]
    rw [min_eq_right (le_mul_of_one_le_right hM0 hpow)]
    have hB : M ≤ d0 * (m : Int) ^ (k + 1) := by
      rw [show d0 * (m : Int) ^ (k + 1) = d0 * (m : Int) * (m : Int) ^ k from by ring]
      calc M ≤ d0 * (m : Int) := h.le
        _ ≤ d0 * (m : Int) * (m : Int) ^ k := le_mul_of_one_le_right (by positivity) hpow
    rw [min_eq_right hB]

theorem withRetryAux_all_retryable (op : Nat → Option GoErr) (canceled : Nat → Bool)
    (M : Int) (m : Nat) (hm : 1 ≤ m) (err : Nat → GoErr)
    (hop : ∀ k, op k = some (err k)) (hretry : ∀ k, IsRetryable (err k) = true)
    (hcancel : ∀ k, canceled k = false) :
    ∀ fuel attempt d0 lastE, 1 ≤ fuel → 0 ≤ d0 → d0 ≤ M →
      withRetryAux op canceled M (m : ℚ) attempt fuel d0 lastE =
        ⟨some (err (attempt + fuel - 1)), fuel,
          (List.range (fuel - 1)).map (fun k => min (d0 * (m : Int) ^ k) M)⟩ := by
  intro fuel
  induction fuel with
  | zero => intro attempt d0 lastE h1; omega
  | succ f ih =>
    intro attempt d0 lastE _ h0 hdM
    cases f with
    | zero =>
      unfold withRetryAux
      rw [hop attempt]
      dsimp only
      rw [show IsCritical (err attempt) = false from retryable_not_critical (hretry attempt)]
      rw [hretry attempt]
      simp
    | succ f' =>
      unfold withRetryAux
      rw [hop attempt]
      dsimp only
      rw [show IsCritical (err attempt) = false from retryable_not_critical (hretry attempt)]
      rw [hretry attempt, hcancel attempt]
      simp only [Bool.not_true, Bool.false_eq_true, if_false, Bool.not_false, if_true,
        Nat.succ_ne_zero, ite_false, ite_true]
      rw [durMulFactor_int]
      have hnd : (if d0 * (m : Int) > M then M else d0 * (m : Int)) = min (d0 * (m : Int)) M := by
        rcases le_or_lt (d0 * (m : Int)) M with h | h
        · rw [if_neg (by omega), min_eq_left h]
        · rw [if_pos h, min_eq_right h.le]
      rw [hnd]
      have hnd0 : 0 ≤ min (d0 * (m : Int)) M := by
        have : (0 : Int) ≤ d0 * (m : Int) := by positivity
        omega
      have hndM : min (d0 * (m : Int)) M ≤ M := min_le_right _ _
      rw [ih (attempt + 1) (min (d0 * (m : Int)) M) (some (err attempt)) (by omega) hnd0 hndM]
      rw [show attempt + 1 + (f' + 1) - 1 = attempt + (f' + 1 + 1) - 1 from by omega]
      simp only [Nat.add_sub_cancel]
      rw [List.range_succ_eq_map, List.map_cons, List.map_map]
      congr 1
      congr 1
      · simp [min_eq_left hdM]
      · apply List.map_congr_left
        intro k _
        simp only [Function.comp_apply]
        exact minCap_pow h0 hdM hm k

/-! ## Claim C5 -/

/-- C5: `WithRetry` with `maxAttempts = n ≥ 1`, `initialDelay = d0`,
`maxDelay = M` (0 ≤ d0 ≤ M) and an integral backoff factor m ≥ 1 (the
`float64` factor modelled exactly; the repository uses 2.0):
(a) when every attempt fails with a Retryable error and the context is
never canceled, it makes exactly n attempts, sleeps
`initialDelay × factor^k` capped at `maxDelay` before the k-th retry,
and returns the last error; (b) on a Critical or non-retryable
(Ordinary) first error it returns that error immediately after one
attempt with no sleep; (c) if the context is canceled during the first
inter-attempt wait it returns the context's cancellation error instead
of the operation's error. -/
theorem claim_C5_retry_backoff_policy
    (n : Nat) (hn : 1 ≤ n) (d0 M : Int) (h0 : 0 ≤ d0) (hdM : d0 ≤ M)
    (m : Nat) (hm : 1 ≤ m) :
    (∀ op canceled (err : Nat → GoErr),
      (∀ k, op k = some (err k)) → (∀ k, IsRetryable (err k) = true) →
      (∀ k, canceled k = false) →
      WithRetry op canceled ⟨(n : Int), d0, M, (m : ℚ)⟩ =
        ⟨some (err n), n,
          (List.range (n - 1)).map (fun k => min (d0 * (m : Int) ^ k) M)⟩) ∧
    (∀ op (canceled : Nat → Bool) e, op 1 = some e →
      IsCritical e = true ∨ IsRetryable e = false →
      WithRetry op canceled ⟨(n : Int), d0, M, (m : ℚ)⟩ = ⟨some e, 1, []⟩) ∧
    (∀ op (canceled : Nat → Bool) e, 2 ≤ n → op 1 = some e →
      IsRetryable e = true → canceled 1 = true →
      WithRetry op canceled ⟨(n : Int), d0, M, (m : ℚ)⟩ =
        ⟨some .ctxCanceled, 1, []⟩) := by
  refine ⟨?_, ?_, ?_⟩
  · intro op canceled err hop hretry hcancel
    unfold WithRetry
    rw [show ((n : Int)).toNat = n from Int.toNat_natCast n]
    rw [withRetryAux_all_retryable op canceled M m hm err hop hretry hcancel n 1 d0 none
      hn h0 hdM]
    rw [show 1 + n - 1 = n from by omega]
  · intro op canceled e hop he
    unfold WithRetry
    rw [show ((n : Int)).toNat = n from Int.toNat_natCast n]
    obtain ⟨f, rfl⟩ : ∃ f, n = f + 1 := ⟨n - 1, by omega⟩
    unfold withRetryAux
    rw [hop]
    dsimp only
    rcases he with he | he
    · rw [he]
      simp
    · rw [he]
      cases hc : IsCritical e with
      | true => simp
      | false => simp
  · intro op canceled e h2 hop hretry hcanc
    unfold WithRetry
    rw [show ((n : Int)).toNat = n from Int.toNat_natCast n]
    obtain ⟨f, rfl⟩ : ∃ f, n = f + 2 := ⟨n - 2, by omega⟩
    unfold withRetryAux
    rw [hop]
    dsimp only
    rw [retryable_not_critical hretry, hretry, hcanc]
    simp

/-- C5 witness: the default policy (3 attempts, 1s initial delay, 30s
cap, factor 2.0) evaluated on an always-timing-out operation, an
authentication failure, and a canceled context. -/
theorem claim_C5_retry_backoff_policy_witness :
    WithRetry (fun _ => some .timeout) (fun _ => false)
      ⟨3, 1000000000, 30000000000, 2⟩ =
      ⟨some .timeout, 3, [1000000000, 2000000000]⟩ ∧
    WithRetry (fun _ => some .authFailed) (fun _ => false)
      ⟨3, 1000000000, 30000000000, 2⟩ = ⟨some .authFailed, 1, []⟩ ∧
    WithRetry (fun _ => some .notFound) (fun _ => false)
      ⟨3, 1000000000, 30000000000, 2⟩ = ⟨some .notFound, 1, []⟩ ∧
    WithRetry (fun _ => some .connFailed) (fun _ => true)
      ⟨3, 1000000000, 30000000000, 2⟩ = ⟨some .ctxCanceled, 1, []⟩ := by
  have h := claim_C5_retry_backoff_policy 3 (by decide) 1000000000 30000000000
    (by decide) (by decide) 2 (by decide)
  refine ⟨?_, ?_, ?_, ?_⟩
  · exact (h.1 (fun _ => some .timeout) (fun _ => false) (fun _ => .timeout)
      (fun _ => rfl) (fun _ => rfl) (fun _ => rfl)).trans (by decide)
  · exact h.2.1 (fun _ => some .authFailed) (fun _ => false) .authFailed rfl (.inl rfl)
  · exact h.2.1 (fun _ => some .notFound) (fun _ => false) .notFound rfl (.inr rfl)
  · exact h.2.2 (fun _ => some .connFailed) (fun _ => true) .connFailed (by decide)
      rfl rfl rfl

/-! ## Claim C10 -/

/-- C10 counterexample: the claim says `WithRetry` *always* executes the
operation at least once, but with `MaxAttempts = 0` the loop body never
runs: the operation is executed zero times and `nil` is returned. -/
theorem claim_C10_zero_attempts_counterexample :
    (WithRetry (fun _ => none) (fun _ => true) ⟨0, 1000000000, 30000000000, 2⟩).opCalls = 0 ∧
    (WithRetry (fun _ => none) (fun _ => true) ⟨0, 1000000000, 30000000000, 2⟩).result = none :=
  ⟨rfl, rfl⟩

/-- C10 (amended): for every configuration with `MaxAttempts ≥ 1`
(including the default of 3), `WithRetry` executes the operation at
least once even when the supplied context is already canceled —
cancellation is only checked during inter-attempt waits, never before
the first attempt — so with a succeeding operation it returns `nil`
after exactly one attempt, not the context's error, for every
cancellation behavior `canceled`. -/
theorem claim_C10_first_attempt_runs
    (op : Nat → Option GoErr) (canceled : Nat → Bool) (cfg : RetryConfig)
    (h : 1 ≤ cfg.MaxAttempts) :
    1 ≤ (WithRetry op canceled cfg).opCalls ∧
    (op 1 = none → WithRetry op canceled cfg = ⟨none, 1, []⟩) := by
  obtain ⟨f, hf⟩ : ∃ f, cfg.MaxAttempts.toNat = f + 1 := ⟨cfg.MaxAttempts.toNat - 1, by omega⟩
  unfold WithRetry
  rw [hf]
  constructor
  · unfold withRetryAux
    cases hop : op 1 with
    | none => simp
    | some e =>
      dsimp only
      split_ifs <;> simp
  · intro h1
    unfold withRetryAux
    rw [h1]

/-- C10 witness: a pre-canceled context (`canceled` constantly true)
with a succeeding operation under the default configuration: the
operation runs once and `nil` is returned. -/
theorem claim_C10_first_attempt_runs_witness :
    1 ≤ (WithRetry (fun _ => none) (fun _ => true) DefaultRetryConfig).opCalls ∧
    WithRetry (fun _ => none) (fun _ => true) DefaultRetryConfig = ⟨none, 1, []⟩ := by
  have h := claim_C10_first_attempt_runs (fun _ => none) (fun _ => true)
    DefaultRetryConfig (by decide)
  exact ⟨h.1, h.2 rfl⟩

/-! ## Claim C6 -/

theorem lookupAssoc_setAssoc_self (k : String) (v : Int) (m : List (String × Int)) :
    lookupAssoc k (setAssoc k v m) = some v := by
  induction m with
  | nil => simp [setAssoc, lookupAssoc]
  | cons p rest ih =>
    rcases p with ⟨k', v'⟩
    unfold setAssoc
    by_cases h : k' = k
    · rw [if_pos h]
      unfold lookupAssoc
      rw [if_pos rfl]
    · rw [if_neg h]
      unfold lookupAssoc
      rw [if_neg h, ih]

theorem lookupAssoc_setAssoc_other {k k' : String} (hne : k ≠ k') (v : Int)
    (m : List (String × Int)) :
    lookupAssoc k (setAssoc k' v m) = lookupAssoc k m := by
  induction m with
  | nil =>
    unfold setAssoc lookupAssoc
    rw [if_neg (fun h => hne h.symm)]
    rfl
  | cons p rest ih =>
    rcases p with ⟨k0, v0⟩
    unfold setAssoc
    by_cases h : k0 = k'
    · subst h
      rw [if_pos rfl]
      unfold lookupAssoc
      rw [if_neg (fun hc => hne hc.symm), if_neg (fun hc => hne hc.symm)]
    · rw [if_neg h]
      unfold lookupAssoc
      by_cases h2 : k0 = k
      · rw [if_pos h2, if_pos h2]
      · rw [if_neg h2, if_neg h2, ih]

theorem getDueTiersStep_yearly (dir : List DirFile) (db : String) (now : Int)
    (hL : findLastBackupTimeByTier dir db "yearly" ≠ zeroSec)
    (hO : findOldestBackup dir db ≠ zeroSec)
    (hOold : now - findOldestBackup dir db ≥ 365 * 86400)
    (sched : TierSchedule) (rt : RetentionTier) (hrt : rt.Tier = "yearly") :
    getDueTiersStep dir db now sched rt =
      { sched with
        Next := setAssoc "yearly" (findOldestBackup dir db + 365 * 86400) sched.Next } := by
  unfold getDueTiersStep
  rw [hrt]
  rw [show tierIntervalSec "yearly" = some (365 * 86400) from rfl]
  dsimp only
  rw [if_pos ⟨rfl, hL, hO, hOold⟩]

theorem getDueTiersStep_other (dir : List DirFile) (db : String) (now : Int)
    (sched : TierSchedule) (rt : RetentionTier) (hrt : rt.Tier ≠ "yearly") :
    ("yearly" ∈ (getDueTiersStep dir db now sched rt).Due ↔ "yearly" ∈ sched.Due) ∧
    lookupAssoc "yearly" (getDueTiersStep dir db now sched rt).Next =
      lookupAssoc "yearly" sched.Next := by
  unfold getDueTiersStep
  cases hint : tierIntervalSec rt.Tier with
  | none => simp
  | some interval =>
    dsimp only
    rw [if_neg (fun hc => hrt hc.1)]
    have hyr : "yearly" ≠ rt.Tier := fun h => hrt h.symm
    have hlk := lookupAssoc_setAssoc_other (k := "yearly") hyr
    by_cases h1 : findLastBackupTimeByTier dir db rt.Tier = zeroSec
    · rw [if_pos h1]
      refine ⟨?_, hlk now sched.Next⟩
      simp [hyr]
    · rw [if_neg h1]
      by_cases h2 : now - findLastBackupTimeByTier dir db rt.Tier ≥ interval
      · rw [if_pos h2]
        refine ⟨?_, hlk now sched.Next⟩
        simp [hyr]
      · rw [if_neg h2]
        exact ⟨Iff.rfl, hlk _ sched.Next⟩

theorem getDueTiers_foldl_yearly (dir : List DirFile) (db : String) (now : Int)
    (hL : findLastBackupTimeByTier dir db "yearly" ≠ zeroSec)
    (hO : findOldestBackup dir db ≠ zeroSec)
    (hOold : now - findOldestBackup dir db ≥ 365 * 86400) :
    ∀ (ts : List RetentionTier) (sched : TierSchedule),
      ("yearly" ∈ (ts.foldl (getDueTiersStep dir db now) sched).Due ↔
        "yearly" ∈ sched.Due) ∧
      lookupAssoc "yearly" (ts.foldl (getDueTiersStep dir db now) sched).Next =
        (if "yearly" ∈ ts.map RetentionTier.Tier then
          some (findOldestBackup dir db + 365 * 86400)
        else lookupAssoc "yearly" sched.Next) := by
  intro ts
  induction ts with
  | nil => intro sched; simp
  | cons rt rest ih =>
    intro sched
    rw [List.foldl_cons]
    by_cases hrt : rt.Tier = "yearly"
    · rw [getDueTiersStep_yearly dir db now hL hO hOold sched rt hrt]
      refine ⟨(ih _).1, ?_⟩
      rw [(ih _).2]
      by_cases hrest : "yearly" ∈ rest.map RetentionTier.Tier
      · rw [if_pos hrest, if_pos (by simp [hrest])]
      · rw [if_neg hrest]
        dsimp only
        rw [lookupAssoc_setAssoc_self, if_pos (by simp [hrt])]
    · have hstep := getDueTiersStep_other dir db now sched rt hrt
      refine ⟨((ih _).1).trans hstep.1, ?_⟩
      rw [(ih _).2, hstep.2]
      by_cases hrest : "yearly" ∈ rest.map RetentionTier.Tier
      · rw [if_pos hrest, if_pos (by simp [hrest])]
      · have hyr : "yearly" ≠ rt.Tier := fun h => hrt h.symm
        rw [if_neg hrest, if_neg (by simp [hrest, hyr])]

/-- C6: if the yearly tier is configured, the latest yearly-tagged
backup exists but is not yet 365 days old, and the oldest backup of any
tier for the database is at least 365 days old, then `GetDueTiers` does
not mark the yearly tier due, and its next-due time is the oldest
backup's timestamp plus the yearly interval. -/
theorem claim_C6_yearly_aging_exception (retentionTiers : List RetentionTier)
    (dir : List DirFile) (db : String) (now : Int)
    (hcfg : "yearly" ∈ retentionTiers.map RetentionTier.Tier)
    (hL : findLastBackupTimeByTier dir db "yearly" ≠ zeroSec)
    (_hLyoung : now - findLastBackupTimeByTier dir db "yearly" < 365 * 86400)
    (hO : findOldestBackup dir db ≠ zeroSec)
    (hOold : now - findOldestBackup dir db ≥ 365 * 86400) :
    "yearly" ∉ (GetDueTiers retentionTiers dir db now).Due ∧
    lookupAssoc "yearly" (GetDueTiers retentionTiers dir db now).Next =
      some (findOldestBackup dir db + 365 * 86400) := by
  have hne : retentionTiers ≠ [] := by
    intro hc
    rw [hc] at hcfg
    simp at hcfg
  unfold GetDueTiers
  rw [if_neg hne]
  have h := getDueTiers_foldl_yearly dir db now hL hO hOold retentionTiers ⟨[], []⟩
  refine ⟨?_, ?_⟩
  · rw [h.1]
    simp
  · rw [h.2, if_pos hcfg]

/-- C6 witness: a database whose oldest backup (a daily one from
2023-01-11) is about 400 days old at now = 2024-02-15 while its newest
yearly-tagged backup (2024-02-05) is only 10 days old: the yearly tier
is not due and its next-due time is the oldest backup plus 365 days. -/
theorem claim_C6_yearly_aging_exception_witness :
    "yearly" ∉ (GetDueTiers [⟨"yearly", 2⟩, ⟨"daily", 7⟩]
      [⟨"mydb--daily--2023-01-11T00-00-00.backup", 500⟩,
       ⟨"mydb--yearly--2024-02-05T00-00-00.backup", 600⟩]
      "mydb" (toSec ⟨2024, 2, 15, 0, 0, 0, 0⟩)).Due ∧
    lookupAssoc "yearly" (GetDueTiers [⟨"yearly", 2⟩, ⟨"daily", 7⟩]
      [⟨"mydb--daily--2023-01-11T00-00-00.backup", 500⟩,
       ⟨"mydb--yearly--2024-02-05T00-00-00.backup", 600⟩]
      "mydb" (toSec ⟨2024, 2, 15, 0, 0, 0, 0⟩)).Next =
      some (findOldestBackup
        [⟨"mydb--daily--2023-01-11T00-00-00.backup", 500⟩,
         ⟨"mydb--yearly--2024-02-05T00-00-00.backup", 600⟩] "mydb" + 365 * 86400) :=
  claim_C6_yearly_aging_exception [⟨"yearly", 2⟩, ⟨"daily", 7⟩]
    [⟨"mydb--daily--2023-01-11T00-00-00.backup", 500⟩,
     ⟨"mydb--yearly--2024-02-05T00-00-00.backup", 600⟩]
    "mydb" (toSec ⟨2024, 2, 15, 0, 0, 0, 0⟩)
    (by decide) (by decide) (by decide) (by decide) (by decide)
